import Mathlib

/-
Verification of the account-linking and reconciliation engine of the
PortfolioApp backend (src/backend/src/app).

Shallow embedding conventions:
  - Python Decimal values are modelled as rationals (the store converts to
    float; we model the arithmetic exactly, which is the intended meaning of
    the derived-field formulas).
  - Database tables (supabase) are modelled as explicit lists of rows; a
    select is a filter, an insert is an append with a fresh id, an update
    rewrites the fields of the rows whose id matches.
  - Exceptions are modelled with Except.  The Python code distinguishes
    plaid ApiException from every other exception, so the error type has two
    constructors.
  - External collaborators (the plaid SDK client, the crypto primitive, the
    supabase driver) are oracles: they are parameters of the model, and the
    control flow of the repository code is embedded faithfully around them.
    The supabase insert driver behaviour (echoing the inserted row or not,
    losing the write, raising) is an oracle indexed by the insert call count,
    mirroring the driver-dependent cases the code handles explicitly.
-/

namespace PortfolioApp

/-! ## Canonical schemas (src/backend/src/app/schemas/plaid.py) -/

/-- PlaidAccount (schemas/plaid.py). -/
structure PlaidAccount where
  account_id : String
  name : String
  type : String
  subtype : Option String
  balance : ℚ
  currency : String
deriving DecidableEq, Repr

/-- PlaidHolding (schemas/plaid.py). -/
structure PlaidHolding where
  account_id : String
  security_id : Option String
  symbol : Option String
  name : String
  quantity : ℚ
  price : ℚ
  value : ℚ
  cost_basis : Option ℚ
deriving DecidableEq, Repr

/-- PlaidSecurity (schemas/plaid.py). -/
structure PlaidSecurity where
  security_id : String
  symbol : Option String
  name : String
  type : Option String
  currency : String
deriving DecidableEq, Repr

/-- PlaidAccountsResponse (schemas/plaid.py). -/
structure PlaidAccountsResponse where
  accounts : List PlaidAccount
  holdings : List PlaidHolding
  securities : List PlaidSecurity
deriving DecidableEq, Repr

/-! ## Raw provider records and normalization
(plaid_service.get_accounts_and_holdings, lines 130-204).

A raw record models one provider SDK object after field extraction with
the local helper ~_get~ (absent or None-valued fields are Option.none) and
with enum-like fields already coerced to their string value by
~_enum_to_str~. -/

/-- Raw balances object of a provider account. -/
structure RawBalances where
  current : Option ℚ
  iso_currency_code : Option String
deriving DecidableEq, Repr

/-- Raw provider account record. -/
structure RawAccount where
  account_id : String
  name : String
  type : Option String
  subtype : Option String
  balances : RawBalances
deriving DecidableEq, Repr

/-- Raw provider holding record. -/
structure RawHolding where
  account_id : String
  security_id : Option String
  quantity : Option ℚ
  institution_price : Option ℚ
  institution_value : Option ℚ
  cost_basis : Option ℚ
deriving DecidableEq, Repr

/-- Raw provider security record. -/
structure RawSecurity where
  security_id : String
  ticker_symbol : Option String
  name : String
  type : Option String
  iso_currency_code : Option String
deriving DecidableEq, Repr

/-- Python truthiness of an optional string: None and the empty string are
falsy.  Used for the ~x or default~ idiom on string fields. -/
def strOrDefault (x : Option String) (d : String) : String :=
  match x with
  | none => d
  | some s => if s = "" then d else s

/-- Python ~x or 0~ on an optional numeric field (None and 0 both give 0,
which coincides with getD 0 over the rationals). -/
def numOrZero (x : Option ℚ) : ℚ := x.getD 0

/-- Account normalization (plaid_service.py lines 154-167).  The type field
goes through str(_enum_to_str(...)), so a missing type becomes the string
"None". -/
def normalizeAccount (a : RawAccount) : PlaidAccount :=
  { account_id := a.account_id
    name := a.name
    type := match a.type with | none => "None" | some s => s
    subtype := a.subtype
    balance := numOrZero a.balances.current
    currency := strOrDefault a.balances.iso_currency_code "USD" }

/-- Holding normalization (plaid_service.py lines 178-194).  The name is
initialised to "Unknown Security" and the symbol to None; both may be
backfilled from the securities lookup afterwards. -/
def normalizeHolding (h : RawHolding) : PlaidHolding :=
  { account_id := h.account_id
    security_id := h.security_id
    symbol := none
    name := "Unknown Security"
    quantity := numOrZero h.quantity
    price := numOrZero h.institution_price
    value := numOrZero h.institution_value
    cost_basis := h.cost_basis }

/-- Security normalization (plaid_service.py lines 196-204). -/
def normalizeSecurity (s : RawSecurity) : PlaidSecurity :=
  { security_id := s.security_id
    symbol := s.ticker_symbol
    name := s.name
    type := s.type
    currency := strOrDefault s.iso_currency_code "USD" }

/-! ## Error model

The code branches on ~except ApiException~ versus ~except Exception~, so a
raised error is either an api error (carrying the display string that
_convert_plaid_error would produce) or a generic exception with a
message. -/

/-- Python exception, as far as the control flow of plaid_service.py
distinguishes them. -/
inductive PyErr where
  | api (display : String)
  | exc (msg : String)
deriving DecidableEq, Repr

/-- Translation of PlaidService._convert_plaid_error (lines 323-334): an
ApiException is re-raised as a generic Exception whose message is built from
the display message or error code of the upstream error body. -/
def convertPlaidError (display : String) : String :=
  "Plaid API Error: " ++ display

/-! ## The sync environment

One row of the plaid_access_tokens table plus the external collaborators the
sync consumes for one user: the crypto reveal, the accounts fetch and the
holdings fetch.  tokens models the result of the select on
plaid_access_tokens for the given user. -/

/-- Stored connection row, as read by the sync (plaid_access_tokens). -/
structure TokenRecord where
  item_id : String
  access_token_encrypted : String
deriving DecidableEq, Repr

/-- Provider response of investments_holdings_get. -/
structure HoldingsResp where
  holdings : List RawHolding
  securities : List RawSecurity
deriving DecidableEq, Repr

/-- External collaborators of get_accounts_and_holdings for one user. -/
structure SyncEnv where
  userId : String
  tokens : List TokenRecord
  decrypt : String → Except PyErr String
  accountsGet : String → Except PyErr (List RawAccount)
  holdingsGet : String → Except PyErr HoldingsResp

/-! ## Securities lookup and backfill (lines 206-212)

security_map is a Python dict comprehension over all securities accumulated
so far, hence duplicate ids resolve last-write-wins; the backfill then
mutates every holding already in the aggregate. -/

/-- Last-write-wins lookup of a security id, modelling the dict
comprehension over all accumulated securities. -/
def lookupSecurity (secs : List PlaidSecurity) (sid : String) : Option PlaidSecurity :=
  secs.foldl (fun acc s => if s.security_id = sid then some s else acc) none

/-- Backfill of one holding from the securities lookup (lines 208-212).
The guard mirrors ~if holding.security_id and holding.security_id in
security_map~; an empty security id is falsy in Python and is skipped. -/
def applySecurities (secs : List PlaidSecurity) (h : PlaidHolding) : PlaidHolding :=
  match h.security_id with
  | none => h
  | some sid =>
      if sid = "" then h
      else
        match lookupSecurity secs sid with
        | none => h
        | some s => { h with name := s.name, symbol := s.symbol }

/-- In-memory aggregate of one sync pass (all_accounts, all_holdings,
all_securities). -/
structure Aggregate where
  accounts : List PlaidAccount
  holdings : List PlaidHolding
  securities : List PlaidSecurity
deriving DecidableEq, Repr

/-- Merge of the fetched data of one connection into the aggregate:
accounts and securities are appended, holdings are appended and then every
holding in the aggregate is backfilled from all securities seen so far
(lines 155-212). -/
def mergeConnection (agg : Aggregate) (accs : List PlaidAccount)
    (hl : List PlaidHolding) (sl : List PlaidSecurity) : Aggregate :=
  let securities := agg.securities ++ sl
  { accounts := agg.accounts ++ accs
    holdings := (agg.holdings ++ hl).map (applySecurities securities)
    securities := securities }

/-- Processing of one connection inside the loop (lines 141-217): decrypt,
fetch accounts (failures propagate), then fetch holdings; an ApiException
from the holdings fetch is caught and the loop continues with only the
accounts appended, while any other exception propagates. -/
def processToken (env : SyncEnv) (agg : Aggregate) (t : TokenRecord) :
    Except PyErr Aggregate :=
  match env.decrypt t.access_token_encrypted with
  | .error e => .error e
  | .ok tok =>
      match env.accountsGet tok with
      | .error e => .error e
      | .ok rawAccounts =>
          match env.holdingsGet tok with
          | .error (.api _) =>
              .ok { agg with accounts := agg.accounts ++ rawAccounts.map normalizeAccount }
          | .error e => .error e
          | .ok hr =>
              .ok (mergeConnection agg (rawAccounts.map normalizeAccount)
                    (hr.holdings.map normalizeHolding)
                    (hr.securities.map normalizeSecurity))

/-- The per-connection loop (lines 141-217). -/
def processTokens (env : SyncEnv) : List TokenRecord → Aggregate → Except PyErr Aggregate
  | [], agg => .ok agg
  | t :: rest, agg =>
      match processToken env agg t with
      | .error e => .error e
      | .ok agg2 => processTokens env rest agg2

/-! ## Portfolio store (plaid_service._store_portfolio_data, lines 236-321)

Rows carry exactly the fields the code writes (timestamps elided: they are
wall-clock strings and no claim depends on them). -/

/-- Row of the portfolio_accounts table, fields written by the code. -/
structure AccountRow where
  id : Nat
  user_id : String
  plaid_account_id : String
  account_name : String
  account_type : String
  total_value : ℚ
deriving DecidableEq, Repr

/-- Row of the holdings table, fields written by the code. -/
structure HoldingRow where
  id : Nat
  account_id : Nat
  symbol : String
  shares : ℚ
  avg_cost : ℚ
  current_price : ℚ
  total_value : ℚ
  gain_loss : ℚ
  security_name : String
deriving DecidableEq, Repr

/-- The two tables touched by the store adapter plus the id sequence. -/
structure Store where
  accounts : List AccountRow
  holdings : List HoldingRow
  nextId : Nat
deriving DecidableEq, Repr

/-- Select on portfolio_accounts filtered by user_id and plaid_account_id
(lines 245 and 273-278). -/
def selectAccounts (s : Store) (u aid : String) : List AccountRow :=
  s.accounts.filter (fun r => r.user_id = u ∧ r.plaid_account_id = aid)

/-- Select on holdings filtered by account_id and symbol (line 302). -/
def selectHoldings (s : Store) (i : Nat) (sym : String) : List HoldingRow :=
  s.holdings.filter (fun r => r.account_id = i ∧ r.symbol = sym)

/-- Resolved account_type written to the store: ~account.subtype or
account.type~ (line 250), with Python string truthiness. -/
def accountTypeOf (a : PlaidAccount) : String :=
  strOrDefault a.subtype a.type

/-- Fields of account_data (lines 247-254) applied to a row; an update
rewrites exactly these fields. -/
def setAccountFields (u : String) (a : PlaidAccount) (r : AccountRow) : AccountRow :=
  { r with
    user_id := u
    account_name := a.name
    account_type := accountTypeOf a
    total_value := a.balance
    plaid_account_id := a.account_id }

/-- Stored symbol key: ~holding.symbol or UNKNOWN~ (lines 291 and 302),
with Python string truthiness. -/
def symKey (h : PlaidHolding) : String :=
  strOrDefault h.symbol "UNKNOWN"

/-- Stored avg_cost (line 293): cost basis over quantity when the cost
basis is truthy (present and nonzero) and the quantity is positive, else
zero. -/
def avgCostOf (h : PlaidHolding) : ℚ :=
  match h.cost_basis with
  | none => 0
  | some cb => if cb ≠ 0 ∧ 0 < h.quantity then cb / h.quantity else 0

/-- Stored gain_loss (line 296): value minus ~cost_basis or 0~. -/
def gainLossOf (h : PlaidHolding) : ℚ :=
  h.value - (h.cost_basis.getD 0)

/-- Fields of holding_data (lines 289-299) applied to a row; an update
rewrites exactly these fields. -/
def setHoldingFields (dbid : Nat) (h : PlaidHolding) (r : HoldingRow) : HoldingRow :=
  { r with
    account_id := dbid
    symbol := symKey h
    shares := h.quantity
    avg_cost := avgCostOf h
    current_price := h.price
    total_value := h.value
    gain_loss := gainLossOf h
    security_name := h.name }

/-- Freshly inserted account row (line 266). -/
def mkAccountRow (i : Nat) (u : String) (a : PlaidAccount) : AccountRow :=
  setAccountFields u a { id := i, user_id := "", plaid_account_id := ""
                         account_name := "", account_type := "", total_value := 0 }

/-- Freshly inserted holding row (line 313). -/
def mkHoldingRow (i dbid : Nat) (h : PlaidHolding) : HoldingRow :=
  setHoldingFields dbid h { id := i, account_id := 0, symbol := "", shares := 0
                            avg_cost := 0, current_price := 0, total_value := 0
                            gain_loss := 0, security_name := "" }

/-- Update of portfolio_accounts by internal id (line 258). -/
def updateAccount (s : Store) (i : Nat) (u : String) (a : PlaidAccount) : Store :=
  { s with accounts := s.accounts.map (fun r => if r.id = i then setAccountFields u a r else r) }

/-- Insert into portfolio_accounts (line 266): appended with a fresh id. -/
def insertAccount (s : Store) (u : String) (a : PlaidAccount) : Store :=
  { s with accounts := s.accounts ++ [mkAccountRow s.nextId u a], nextId := s.nextId + 1 }

/-- Update of holdings by internal id (line 306). -/
def updateHolding (s : Store) (i dbid : Nat) (h : PlaidHolding) : Store :=
  { s with holdings := s.holdings.map (fun r => if r.id = i then setHoldingFields dbid h r else r) }

/-- Insert into holdings (line 313): appended with a fresh id. -/
def insertHolding (s : Store) (dbid : Nat) (h : PlaidHolding) : Store :=
  { s with holdings := s.holdings ++ [mkHoldingRow s.nextId dbid h], nextId := s.nextId + 1 }

/-- Driver behaviour of one supabase insert call: the write lands and the
row is echoed back, the write lands but no data is returned, the write is
lost and no data is returned, or the call raises. -/
inductive InsOutcome where
  | echo
  | writeNoEcho
  | lostNoEcho
  | raiseErr
deriving DecidableEq, Repr

/-- Insert behaviour oracle, indexed by the running count of insert calls
made by this store pass. -/
def InsBeh : Type := Nat → InsOutcome

/-- The always-echoing driver (the healthy path). -/
def echoBeh : InsBeh := fun _ => .echo

/-- Holdings sub-loop of _store_portfolio_data (lines 286-316) for one
account with resolved internal id dbid.  The insert result data is never
inspected for holdings, so echo and writeNoEcho act alike; a lost write
leaves the table unchanged; a raising insert aborts the whole store pass
(the exception travels to the catch-all at line 319).  Returns the store,
the insert call count and whether the pass aborted. -/
def runHoldings (beh : InsBeh) (dbid : Nat) :
    List PlaidHolding → Store → Nat → Store × Nat × Bool
  | [], s, c => (s, c, false)
  | h :: rest, s, c =>
      match selectHoldings s dbid (symKey h) with
      | r :: _ => runHoldings beh dbid rest (updateHolding s r.id dbid h) c
      | [] =>
          match beh c with
          | .raiseErr => (s, c + 1, true)
          | .lostNoEcho => runHoldings beh dbid rest s (c + 1)
          | _ => runHoldings beh dbid rest (insertHolding s dbid h) (c + 1)

/-- Account loop of _store_portfolio_data (lines 243-316).  For each
account: select by the natural key; update when found, else insert; when
the insert echoes nothing, re-select by the natural key (limit 1) to
recover the internal id, and when that also returns nothing, log and skip
the holdings of this account, continuing with the remaining accounts. -/
def runAccounts (beh : InsBeh) (u : String) (hs : List PlaidHolding) :
    List PlaidAccount → Store → Nat → Store × Nat × Bool
  | [], s, c => (s, c, false)
  | a :: rest, s, c =>
      match selectAccounts s u a.account_id with
      | r :: _ =>
          let s1 := updateAccount s r.id u a
          let out := runHoldings beh r.id (hs.filter (fun h => h.account_id = a.account_id)) s1 c
          if out.2.2 then out else runAccounts beh u hs rest out.1 out.2.1
      | [] =>
          match beh c with
          | .raiseErr => (s, c + 1, true)
          | .echo =>
              let dbid := s.nextId
              let s1 := insertAccount s u a
              let out := runHoldings beh dbid (hs.filter (fun h => h.account_id = a.account_id)) s1 (c + 1)
              if out.2.2 then out else runAccounts beh u hs rest out.1 out.2.1
          | .writeNoEcho =>
              let s1 := insertAccount s u a
              match selectAccounts s1 u a.account_id with
              | r2 :: _ =>
                  let out := runHoldings beh r2.id (hs.filter (fun h => h.account_id = a.account_id)) s1 (c + 1)
                  if out.2.2 then out else runAccounts beh u hs rest out.1 out.2.1
              | [] => runAccounts beh u hs rest s1 (c + 1)
          | .lostNoEcho =>
              match selectAccounts s u a.account_id with
              | r2 :: _ =>
                  let out := runHoldings beh r2.id (hs.filter (fun h => h.account_id = a.account_id)) s (c + 1)
                  if out.2.2 then out else runAccounts beh u hs rest out.1 out.2.1
              | [] => runAccounts beh u hs rest s (c + 1)

/-- _store_portfolio_data (lines 236-321): runs the account loop inside a
try and swallows any exception (line 319), so the caller always resumes.
The returned flag records whether an exception was caught. -/
def store_portfolio_data (beh : InsBeh) (u : String) (accounts : List PlaidAccount)
    (holdings : List PlaidHolding) (s : Store) : Store × Bool :=
  let out := runAccounts beh u holdings accounts s 0
  (out.1, out.2.2)

/-! ## The sync entry point (get_accounts_and_holdings, lines 115-234) -/

/-- Body of the outer try of get_accounts_and_holdings: load the token
rows, raise when there are none (line 122), run the per-connection loop,
persist best-effort, return the aggregate (lines 223-227).  The result also
carries the final store and whether the swallowed persistence exception
occurred. -/
def syncBody (env : SyncEnv) (beh : InsBeh) (s0 : Store) :
    Except PyErr (PlaidAccountsResponse × Store × Bool) :=
  if env.tokens.isEmpty then
    .error (.exc "No Plaid accounts linked for this user")
  else
    match processTokens env env.tokens ⟨[], [], []⟩ with
    | .error e => .error e
    | .ok agg =>
        let st := store_portfolio_data beh env.userId agg.accounts agg.holdings s0
        .ok (⟨agg.accounts, agg.holdings, agg.securities⟩, st.1, st.2)

/-- get_accounts_and_holdings: the body wrapped in the outer exception
handlers (lines 229-234): an ApiException becomes the converted plaid
error, and every other exception is replaced by the generic message. -/
def get_accounts_and_holdings (env : SyncEnv) (beh : InsBeh) (s0 : Store) :
    Except PyErr (PlaidAccountsResponse × Store × Bool) :=
  match syncBody env beh s0 with
  | .ok r => .ok r
  | .error (.api d) => .error (.exc (convertPlaidError d))
  | .error (.exc _) => .error (.exc "Failed to retrieve account data")

/-! ## API boundary for the sync (api/v1/plaid.py, get_accounts_and_holdings
endpoint, lines 136-169).  The handler catches every exception and maps the
message to 404 when it contains the no-linked-accounts marker, else to a
generic 500. -/

/-- Prefix test on character lists (helper for the substring check the
endpoint performs with the Python ~in~ operator). -/
def strPre : List Char → List Char → Bool
  | [], _ => true
  | _ :: _, [] => false
  | a :: as2, b :: bs => a == b && strPre as2 bs

/-- Substring occurrence of pat in the second list, as Python ~pat in s~. -/
def strHas (pat : List Char) : List Char → Bool
  | [] => strPre pat []
  | c :: rest => strPre pat (c :: rest) || strHas pat rest

/-- Python ~pat in msg~ on strings. -/
def containsMsg (pat msg : String) : Bool :=
  strHas pat.data msg.data

/-- HTTP outcome of an endpoint call. -/
structure ApiResp where
  status : Nat
  detail : String
deriving DecidableEq, Repr

/-- The /plaid/accounts endpoint handler (api/v1/plaid.py lines 136-169):
on success 200; on exception, 404 when the message contains
"No Plaid accounts linked", else 500 carrying the message. -/
def accounts_endpoint (env : SyncEnv) (beh : InsBeh) (s0 : Store) : ApiResp × Store :=
  match get_accounts_and_holdings env beh s0 with
  | .ok (_, st, _) => (⟨200, ""⟩, st)
  | .error (.exc m) =>
      if containsMsg "No Plaid accounts linked" m then
        (⟨404, "No linked accounts found. Please link an account first."⟩, s0)
      else (⟨500, m⟩, s0)
  | .error (.api d) => (⟨500, convertPlaidError d⟩, s0)

/-! ## Token exchange (plaid_service.exchange_public_token, lines 80-113,
and the /plaid/exchange-token endpoint, api/v1/plaid.py lines 90-133). -/

/-- Row inserted into plaid_access_tokens (timestamps elided). -/
structure TokenRow where
  user_id : String
  item_id : String
  access_token_encrypted : String
deriving DecidableEq, Repr

/-- External collaborators of the exchange flow: the provider exchange
call, the crypto encrypt, and the supabase insert on plaid_access_tokens
(returning the echoed rows, possibly empty, or raising). -/
structure LinkEnv where
  exchange : Except PyErr (String × String)
  encryptFn : String → String
  insertTokenRow : TokenRow → Except PyErr (List TokenRow)

/-- Body of exchange_public_token (lines 82-106): exchange, encrypt, insert;
True when the insert echoes data, False when it echoes none (line 104-106,
the failure is only logged). -/
def exchangeBody (env : LinkEnv) (u : String) : Except PyErr Bool :=
  match env.exchange with
  | .error e => .error e
  | .ok (accessToken, itemId) =>
      match env.insertTokenRow ⟨u, itemId, env.encryptFn accessToken⟩ with
      | .error e => .error e
      | .ok data => .ok (!data.isEmpty)

/-- exchange_public_token with its outer handlers (lines 108-113). -/
def exchange_public_token (env : LinkEnv) (u : String) : Except PyErr Bool :=
  match exchangeBody env u with
  | .ok b => .ok b
  | .error (.api d) => .error (.exc (convertPlaidError d))
  | .error (.exc _) => .error (.exc "Failed to exchange public token")

/-- Outcome of the /plaid/exchange-token endpoint: HTTP status, the success
flag and message of the response body, and whether the best-effort initial
sync was attempted. -/
structure LinkResult where
  status : Nat
  success : Bool
  message : String
  syncAttempted : Bool
deriving DecidableEq, Repr

/-- The /plaid/exchange-token endpoint handler (api/v1/plaid.py lines
90-133): on True it attempts the initial sync (failures swallowed) and
reports success; on False it reports failure with a retry message and does
not sync; an exception maps to a 500 with its message. -/
def exchange_token_endpoint (env : LinkEnv) (u : String) : LinkResult :=
  match exchange_public_token env u with
  | .ok true => ⟨200, true, "Account successfully linked", true⟩
  | .ok false => ⟨200, false, "Failed to link account. Please try again.", false⟩
  | .error (.exc m) => ⟨500, false, m, false⟩
  | .error (.api d) => ⟨500, false, convertPlaidError d, false⟩

/-! ## Credential vault cipher (core/encryption.py, lines 36-45)

encrypt runs the Fernet primitive and wraps its token in one extra layer of
urlsafe base64; decrypt strips exactly that layer and then runs the Fernet
decrypt.  The Fernet pair is library code outside the repository and is
treated as an opaque inverse pair of byte functions, per the spec boundary;
the base64 layer (the code of encryption.py itself) is embedded concretely.
Bytes are naturals below 256, strings of bytes are lists. -/

/-- Urlsafe base64 alphabet: sextet value to character code. -/
def b64char (n : Nat) : Nat :=
  if n < 26 then 65 + n
  else if n < 52 then 97 + (n - 26)
  else if n < 62 then 48 + (n - 52)
  else if n = 62 then 45
  else 95

/-- Urlsafe base64 alphabet: character code to sextet value. -/
def b64val (c : Nat) : Nat :=
  if 65 ≤ c ∧ c ≤ 90 then c - 65
  else if 97 ≤ c ∧ c ≤ 122 then c - 97 + 26
  else if 48 ≤ c ∧ c ≤ 57 then c - 48 + 52
  else if c = 45 then 62
  else 63

/-- base64.urlsafe_b64encode on a byte list (61 is the padding character
code of the equals sign). -/
def b64encode : List Nat → List Nat
  | [] => []
  | [a] => [b64char (a / 4), b64char (a % 4 * 16), 61, 61]
  | [a, b] => [b64char (a / 4), b64char (a % 4 * 16 + b / 16), b64char (b % 16 * 4), 61]
  | a :: b :: c :: rest =>
      b64char (a / 4) :: b64char (a % 4 * 16 + b / 16) ::
      b64char (b % 16 * 4 + c / 64) :: b64char (c % 64) :: b64encode rest

/-- base64.urlsafe_b64decode on a character code list. -/
def b64decode : List Nat → List Nat
  | c1 :: c2 :: c3 :: c4 :: rest =>
      if c3 = 61 then [b64val c1 * 4 + b64val c2 / 16]
      else if c4 = 61 then
        [b64val c1 * 4 + b64val c2 / 16, b64val c2 % 16 * 16 + b64val c3 / 4]
      else
        (b64val c1 * 4 + b64val c2 / 16) :: (b64val c2 % 16 * 16 + b64val c3 / 4) ::
        (b64val c3 % 4 * 64 + b64val c4) :: b64decode rest
  | _ => []

/-- EncryptionService.encrypt (lines 36-39) at the byte level, parametric in
the opaque Fernet encrypt. -/
def encryptBytes (fernetEnc : List Nat → List Nat) (data : List Nat) : List Nat :=
  b64encode (fernetEnc data)

/-- EncryptionService.decrypt (lines 41-45) at the byte level, parametric in
the opaque Fernet decrypt. -/
def decryptBytes (fernetDec : List Nat → List Nat) (tok : List Nat) : List Nat :=
  fernetDec (b64decode tok)

/-! ## Base64 layer lemmas -/

/-- The alphabet map is inverted by the value map on sextets. -/
theorem b64val_b64char : ∀ n : Nat, n < 64 → b64val (b64char n) = n := by decide

/-- No alphabet character is the padding character. -/
theorem b64char_ne_pad (n : Nat) : b64char n ≠ 61 := by
  unfold b64char
  split_ifs <;> omega

/-- Decoding inverts encoding on byte lists. -/
theorem b64decode_encode : ∀ l : List Nat, (∀ b ∈ l, b < 256) → b64decode (b64encode l) = l
  | [], _ => rfl
  | [a], h => by
      have ha : a < 256 := h a (by simp)
      simp only [b64encode, b64decode, if_pos]
      rw [b64val_b64char _ (by omega), b64val_b64char _ (by omega)]
      congr 1
      omega
  | [a, b], h => by
      have ha : a < 256 := h a (by simp)
      have hb : b < 256 := h b (by simp)
      simp only [b64encode, b64decode]
      rw [if_neg (b64char_ne_pad _), if_pos trivial]
      rw [b64val_b64char _ (by omega), b64val_b64char _ (by omega),
        b64val_b64char _ (by omega)]
      congr 1
      · omega
      · congr 1
        omega
  | a :: b :: c :: rest, h => by
      have ha : a < 256 := h a (by simp)
      have hb : b < 256 := h b (by simp)
      have hc : c < 256 := h c (by simp)
      have hrec := b64decode_encode rest (fun x hx => h x (by simp [hx]))
      simp only [b64encode, b64decode]
      rw [if_neg (b64char_ne_pad _), if_neg (b64char_ne_pad _)]
      rw [b64val_b64char _ (by omega), b64val_b64char _ (by omega),
        b64val_b64char _ (by omega), b64val_b64char _ (by omega), hrec]
      congr 1
      · omega
      congr 1
      · omega
      congr 1
      omega

/-- C10: for every plaintext, decrypt inverts encrypt on the credential
vault cipher: encrypt wraps the (opaque, inverse-pair) Fernet token in one
extra urlsafe base64 layer and decrypt strips exactly that layer, so the
pair is an exact round trip whenever the Fernet token is a byte string. -/
theorem c10_encrypt_decrypt_roundtrip (fernetEnc fernetDec : List Nat → List Nat)
    (data : List Nat) (hinv : ∀ x, fernetDec (fernetEnc x) = x)
    (hbytes : ∀ b ∈ fernetEnc data, b < 256) :
    decryptBytes fernetDec (encryptBytes fernetEnc data) = data := by
  unfold decryptBytes encryptBytes
  rw [b64decode_encode _ hbytes, hinv]

/-- Witness for C10 at a concrete plaintext, with the identity as the
Fernet pair. -/
theorem c10_witness :
    (∀ x : List Nat, id x = x) ∧ (∀ b ∈ id [72, 105, 33], b < 256) ∧
      decryptBytes id (encryptBytes id [72, 105, 33]) = [72, 105, 33] :=
  ⟨fun _ => rfl, by decide,
    c10_encrypt_decrypt_roundtrip id id [72, 105, 33] (fun _ => rfl) (by decide)⟩

/-! ## Derived stored fields (claim C6) -/

/-- Average cost as the spec words it: cost basis over quantity when the
cost basis is present and the quantity is positive, else zero. -/
def specAverageCost (h : PlaidHolding) : ℚ :=
  if h.cost_basis.isSome ∧ 0 < h.quantity then h.cost_basis.getD 0 / h.quantity else 0

/-- Gain or loss as the spec words it: market value minus cost basis, a
missing cost basis treated as zero. -/
def specGainLoss (h : PlaidHolding) : ℚ :=
  h.value - h.cost_basis.getD 0

/-- C6: every holding row written by the upsert (inserted or updated, both
write setHoldingFields) stores average cost equal to cost basis over
quantity when the cost basis is present and the quantity positive and zero
otherwise (the guard makes the division safe), and stores gain and loss
equal to market value minus the cost basis defaulted to zero; both are
functions of the fetched holding alone, recomputed at write time. -/
theorem c6_derived_fields (dbid : Nat) (h : PlaidHolding) (r : HoldingRow) :
    (setHoldingFields dbid h r).avg_cost = specAverageCost h ∧
    (setHoldingFields dbid h r).gain_loss = specGainLoss h ∧
    (h.quantity = 0 → (setHoldingFields dbid h r).avg_cost = 0) := by
  refine ⟨?_, rfl, ?_⟩
  · show avgCostOf h = specAverageCost h
    unfold avgCostOf specAverageCost
    match hcb : h.cost_basis with
    | none => simp
    | some cb =>
        by_cases hz : cb = 0
        · subst hz
          simp only [Option.isSome_some, true_and, Option.getD_some, zero_div]
          split_ifs <;> simp
        · by_cases hq : 0 < h.quantity
          · simp [hz, hq]
          · simp [hz, hq]
  · intro hq
    show avgCostOf h = 0
    unfold avgCostOf
    match h.cost_basis with
    | none => rfl
    | some cb => simp [hq]

/-! ## Shared concrete fixtures -/

/-- Empty store with id sequence starting at 1. -/
def store0 : Store := ⟨[], [], 1⟩

/-- Fixture: a raw depository account. -/
def rawAcct1 : RawAccount :=
  ⟨"acc1", "Checking", some "depository", some "checking", ⟨some 1750.25, some "USD"⟩⟩

/-- Fixture: a raw investment account. -/
def rawAcct2 : RawAccount :=
  ⟨"acc2", "Brokerage", some "investment", some "brokerage", ⟨some 100, some "USD"⟩⟩

/-! ## Claim C2: zero connections -/

/-- C2: for a user with zero stored connections the sync does not surface
the distinct no-linked-accounts condition: the catch-all at line 232
rewrites the message raised at line 122 into the generic failure, so the
boundary check for "No Plaid accounts linked" never matches and the
endpoint answers a generic 500 instead of the intended 404. -/
theorem c2_no_connections_generic_error (env : SyncEnv) (beh : InsBeh) (s0 : Store)
    (hz : env.tokens = []) :
    get_accounts_and_holdings env beh s0 = .error (.exc "Failed to retrieve account data") ∧
    (accounts_endpoint env beh s0).1 = ⟨500, "Failed to retrieve account data"⟩ := by
  have hbody : syncBody env beh s0 = .error (.exc "No Plaid accounts linked for this user") := by
    unfold syncBody
    rw [hz]
    rfl
  have hget : get_accounts_and_holdings env beh s0 =
      .error (.exc "Failed to retrieve account data") := by
    unfold get_accounts_and_holdings
    rw [hbody]
  have hmiss : containsMsg "No Plaid accounts linked" "Failed to retrieve account data" = false := by
    decide
  refine ⟨hget, ?_⟩
  unfold accounts_endpoint
  rw [hget]
  simp [hmiss]

/-- Fixture environment for C2: a user with no stored connections. -/
def envC2 : SyncEnv :=
  ⟨"u2", [], fun _ => .error (.exc "unused"), fun _ => .error (.exc "unused"),
   fun _ => .error (.exc "unused")⟩

/-- Witness for C2 at a concrete zero-connection environment. -/
theorem c2_witness :
    get_accounts_and_holdings envC2 echoBeh store0 =
      .error (.exc "Failed to retrieve account data") ∧
    (accounts_endpoint envC2 echoBeh store0).1 = ⟨500, "Failed to retrieve account data"⟩ :=
  c2_no_connections_generic_error envC2 echoBeh store0 rfl

/-! ## Claim C1: per-connection failure containment -/

/-- A connection whose decrypt raises, or whose accounts fetch raises (any
error), before the holdings stage. -/
def connFails (env : SyncEnv) (t : TokenRecord) : Prop :=
  (∃ e, env.decrypt t.access_token_encrypted = .error e) ∨
  (∃ tok e, env.decrypt t.access_token_encrypted = .ok tok ∧ env.accountsGet tok = .error e)

/-- A failing decrypt or accounts fetch makes processToken fail. -/
theorem processToken_error_of_connFails (env : SyncEnv) (agg : Aggregate) (t : TokenRecord)
    (hf : connFails env t) : ∃ e, processToken env agg t = .error e := by
  rcases hf with ⟨e, he⟩ | ⟨tok, e, hd, ha⟩
  · exact ⟨e, by simp [processToken, he]⟩
  · refine ⟨e, ?_⟩
    unfold processToken
    rw [hd]
    dsimp only
    rw [ha]

/-- The loop fails as soon as any member connection fails decrypt or
accounts fetch: such failures are never skipped. -/
theorem processTokens_error_of_mem (env : SyncEnv) :
    ∀ (ts : List TokenRecord) (agg : Aggregate) (t : TokenRecord), t ∈ ts → connFails env t →
      ∃ e, processTokens env ts agg = .error e
  | [], _, t, ht, _ => absurd ht (List.not_mem_nil t)
  | t2 :: rest, agg, t, ht, hf => by
      cases hpt : processToken env agg t2 with
      | error e => exact ⟨e, by simp [processTokens, hpt]⟩
      | ok agg2 =>
          rcases List.mem_cons.mp ht with rfl | hmem
          · obtain ⟨e, he⟩ := processToken_error_of_connFails env agg t hf
            rw [hpt] at he
            cases he
          · obtain ⟨e, he⟩ := processTokens_error_of_mem env rest agg2 t hmem hf
            exact ⟨e, by simp [processTokens, hpt, he]⟩

/-- C1 (amended): a failure while processing one connection before the
holdings stage (decrypt raising, or the accounts fetch raising) aborts the
whole sync: get_accounts_and_holdings raises and no partial aggregate is
returned.  Only the holdings fetch enjoys the per-connection skip. -/
theorem c1_amended_connection_failure_aborts_sync (env : SyncEnv) (beh : InsBeh) (s0 : Store)
    (t : TokenRecord) (ht : t ∈ env.tokens) (hf : connFails env t) :
    ∃ m, get_accounts_and_holdings env beh s0 = .error (.exc m) := by
  have hne : env.tokens.isEmpty = false := by
    cases henv : env.tokens with
    | nil => rw [henv] at ht; cases ht
    | cons a l => rfl
  obtain ⟨e, he⟩ := processTokens_error_of_mem env env.tokens ⟨[], [], []⟩ t ht hf
  unfold get_accounts_and_holdings syncBody
  simp only [hne, Bool.false_eq_true, if_false, he]
  cases e with
  | api d => exact ⟨convertPlaidError d, rfl⟩
  | exc m => exact ⟨"Failed to retrieve account data", rfl⟩

/-- Fixture environment for C1: two connections; the first fails its
accounts fetch with a provider error, the second is fully healthy. -/
def envC1 : SyncEnv :=
  ⟨"u1", [⟨"item1", "enc1"⟩, ⟨"item2", "enc2"⟩],
   fun s => .ok s,
   fun tok => if tok = "enc1" then .error (.api "INSTITUTION_DOWN") else .ok [rawAcct2],
   fun _ => .ok ⟨[], []⟩⟩

/-- C1 counterexample: with two stored connections where only the first
fails its accounts fetch and the second would succeed with a nonempty
account list, the sync raises instead of returning the surviving
connection, refuting the claim as stated. -/
theorem c1_counterexample :
    envC1.decrypt "enc2" = .ok "enc2" ∧
    envC1.accountsGet "enc2" = .ok [rawAcct2] ∧
    get_accounts_and_holdings envC1 echoBeh store0 =
      .error (.exc "Plaid API Error: INSTITUTION_DOWN") := by
  exact ⟨rfl, rfl, rfl⟩

/-- Witness for the amended C1 at the concrete two-connection fixture. -/
theorem c1_witness :
    ∃ m, get_accounts_and_holdings envC1 echoBeh store0 = .error (.exc m) :=
  c1_amended_connection_failure_aborts_sync envC1 echoBeh store0 ⟨"item1", "enc1"⟩
    (by decide) (Or.inr ⟨"enc1", .api "INSTITUTION_DOWN", rfl, rfl⟩)

/-! ## Claim C4: persistence failures are swallowed -/

/-- Response assembled from the aggregate (lines 223-227). -/
def respOf (agg : Aggregate) : PlaidAccountsResponse :=
  ⟨agg.accounts, agg.holdings, agg.securities⟩

/-- C4: whenever the fetch phase succeeds, the sync returns the freshly
fetched aggregate for every store driver behaviour, including ones that
raise inside the upsert: the persistence exception is caught inside
store_portfolio_data and never propagates to the caller. -/
theorem c4_persistence_failure_swallowed (env : SyncEnv) (beh : InsBeh) (s0 : Store)
    (agg : Aggregate) (hne : env.tokens ≠ [])
    (hp : processTokens env env.tokens ⟨[], [], []⟩ = .ok agg) :
    ∃ st ab, get_accounts_and_holdings env beh s0 = .ok (respOf agg, st, ab) := by
  have hne2 : env.tokens.isEmpty = false := by
    cases henv : env.tokens with
    | nil => exact absurd henv hne
    | cons a l => rfl
  unfold get_accounts_and_holdings syncBody
  simp only [hne2, Bool.false_eq_true, if_false, hp]
  exact ⟨_, _, rfl⟩

/-- Fixture environment for C4: one healthy connection whose holdings
fetch reports the provider does not support investments. -/
def envC4 : SyncEnv :=
  ⟨"u4", [⟨"item4", "enc4"⟩], fun s => .ok s, fun _ => .ok [rawAcct1],
   fun _ => .error (.api "PRODUCTS_NOT_SUPPORTED")⟩

/-- The always-raising insert driver. -/
def boomBeh : InsBeh := fun _ => .raiseErr

/-- Aggregate fetched by the C4 fixture. -/
def aggC4 : Aggregate := ⟨[normalizeAccount rawAcct1], [], []⟩

/-- Witness for C4: the raising driver makes the store pass abort (flag
true), yet the sync returns the fetched aggregate. -/
theorem c4_witness :
    (∃ st ab, get_accounts_and_holdings envC4 boomBeh store0 = .ok (respOf aggC4, st, ab)) ∧
    (store_portfolio_data boomBeh "u4" aggC4.accounts aggC4.holdings store0).2 = true :=
  ⟨c4_persistence_failure_swallowed envC4 boomBeh store0 aggC4 (by decide) rfl, rfl⟩

/-! ## Claim C9: token exchange with a failing store write -/

/-- Fixture environment for C9: the provider exchange succeeds and the
insert into plaid_access_tokens echoes no rows back. -/
def envC9 : LinkEnv := ⟨.ok ("atok", "item9"), fun s => "enc-" ++ s, fun _ => .ok []⟩

/-- C9 counterexample: when the store write returns no data the service
does not fail with any error at all: exchange_public_token returns ok
false (lines 104-106), refuting the claimed StorageError failure. -/
theorem c9_counterexample : exchange_public_token envC9 "u9" = .ok false := rfl

/-- C9 (amended): when the token exchange succeeds but the store insert
echoes no rows, exchange_public_token returns False without raising, and
the endpoint reports success false with the retry message to the caller
and does not attempt the initial sync. -/
theorem c9_amended_store_write_failure_returns_false (env : LinkEnv) (u atk iid : String)
    (hex : env.exchange = .ok (atk, iid))
    (hins : env.insertTokenRow ⟨u, iid, env.encryptFn atk⟩ = .ok []) :
    exchange_public_token env u = .ok false ∧
    exchange_token_endpoint env u =
      ⟨200, false, "Failed to link account. Please try again.", false⟩ := by
  have hb : exchangeBody env u = .ok false := by
    unfold exchangeBody
    rw [hex]
    dsimp only
    rw [hins]
    rfl
  have h1 : exchange_public_token env u = .ok false := by
    unfold exchange_public_token
    rw [hb]
  refine ⟨h1, ?_⟩
  unfold exchange_token_endpoint
  rw [h1]

/-- Witness for the amended C9 at the concrete fixture. -/
theorem c9_witness :
    exchange_public_token envC9 "u9" = .ok false ∧
    exchange_token_endpoint envC9 "u9" =
      ⟨200, false, "Failed to link account. Please try again.", false⟩ :=
  c9_amended_store_write_failure_returns_false envC9 "u9" "atok" "item9" rfl rfl

/-! ## Claim C7: securities lookup rebuild and backfill -/

/-- Unfolding the lookup fold from an arbitrary accumulator. -/
theorem lookupSecurity_foldl (sid : String) (l : List PlaidSecurity) :
    ∀ init : Option PlaidSecurity,
      l.foldl (fun acc s => if s.security_id = sid then some s else acc) init =
        match l.foldl (fun acc s => if s.security_id = sid then some s else acc) none with
        | none => init
        | some x => some x := by
  induction l with
  | nil => intro init; rfl
  | cons s t ih =>
      intro init
      simp only [List.foldl_cons]
      rw [ih (if s.security_id = sid then some s else init),
        ih (if s.security_id = sid then some s else none)]
      cases hF : t.foldl (fun acc s => if s.security_id = sid then some s else acc) none with
      | none => by_cases hp : s.security_id = sid <;> simp [hp]
      | some x => rfl

/-- The lookup over concatenated security lists prefers the second list:
last write wins across connections. -/
theorem lookupSecurity_append (l1 l2 : List PlaidSecurity) (sid : String) :
    lookupSecurity (l1 ++ l2) sid =
      match lookupSecurity l2 sid with
      | none => lookupSecurity l1 sid
      | some s => some s := by
  unfold lookupSecurity
  rw [List.foldl_append]
  exact lookupSecurity_foldl sid l2 _

/-- C7: the backfill after a connection merge is computed from all
securities accumulated so far across every connection (the prior aggregate
securities concatenated with the new ones) and is applied positionally to
every holding already in the aggregate, so a later connection security can
enrich an earlier connection holding whose external security id matches;
and the lookup resolves duplicate security ids last-write-wins. -/
theorem c7_securities_backfill (agg : Aggregate) (accs : List PlaidAccount)
    (hl : List PlaidHolding) (sl : List PlaidSecurity) (i : Nat)
    (hi : i < agg.holdings.length)
    (hj : i < (mergeConnection agg accs hl sl).holdings.length)
    (sid : String) (sec : PlaidSecurity)
    (hsid : (agg.holdings.get ⟨i, hi⟩).security_id = some sid) (hz : sid ≠ "")
    (hlook : lookupSecurity (agg.securities ++ sl) sid = some sec) :
    ((mergeConnection agg accs hl sl).holdings.get ⟨i, hj⟩).name = sec.name ∧
    ((mergeConnection agg accs hl sl).holdings.get ⟨i, hj⟩).symbol = sec.symbol ∧
    (mergeConnection agg accs hl sl).securities = agg.securities ++ sl ∧
    (∀ (l1 l2 : List PlaidSecurity) (sid2 : String) (s2 : PlaidSecurity),
        lookupSecurity l2 sid2 = some s2 → lookupSecurity (l1 ++ l2) sid2 = some s2) ∧
    (∀ (l : List PlaidSecurity) (s2 : PlaidSecurity),
        lookupSecurity (l ++ [s2]) s2.security_id = some s2) := by
  have e2 : (mergeConnection agg accs hl sl).holdings.get ⟨i, hj⟩ =
      applySecurities (agg.securities ++ sl) (agg.holdings.get ⟨i, hi⟩) := by
    rw [List.get_eq_getElem, List.get_eq_getElem]
    show ((agg.holdings ++ hl).map (applySecurities (agg.securities ++ sl)))[i] = _
    rw [List.getElem_map, List.getElem_append_left hi]
  have e3n : (applySecurities (agg.securities ++ sl) (agg.holdings.get ⟨i, hi⟩)).name =
      sec.name := by
    unfold applySecurities
    rw [hsid]
    dsimp only
    rw [if_neg hz, hlook]
  have e3s : (applySecurities (agg.securities ++ sl) (agg.holdings.get ⟨i, hi⟩)).symbol =
      sec.symbol := by
    unfold applySecurities
    rw [hsid]
    dsimp only
    rw [if_neg hz, hlook]
  refine ⟨by rw [e2, e3n], by rw [e2, e3s], rfl, ?_, ?_⟩
  · intro l1 l2 sid2 s2 hs
    rw [lookupSecurity_append, hs]
  · intro l s2
    rw [lookupSecurity_append]
    have : lookupSecurity [s2] s2.security_id = some s2 := by
      unfold lookupSecurity
      simp
    rw [this]

/-- Fixture for C7: a holding fetched by an earlier connection that
references security id S1, an earlier security registry entry for S1, and a
later connection returning a duplicate S1 entry that must win. -/
def holdC7 : PlaidHolding :=
  ⟨"acc1", some "S1", none, "Unknown Security", 2, 10, 20, some 12⟩

/-- Fixture: stale S1 entry seen by the earlier connection. -/
def secC7old : PlaidSecurity := ⟨"S1", some "OLD", "Old Name", some "equity", "USD"⟩

/-- Fixture: S1 entry returned by the later connection. -/
def secC7new : PlaidSecurity := ⟨"S1", some "NEW", "New Name", some "equity", "USD"⟩

/-- Aggregate before the later connection merges, for the C7 witness. -/
def aggC7 : Aggregate := ⟨[], [holdC7], [secC7old]⟩

/-- Witness for C7: merging the later connection (which fetches no new
holdings but a duplicate S1 security) rewrites the earlier holding with the
last-seen security name and symbol. -/
theorem c7_witness :
    ((mergeConnection aggC7 [] [] [secC7new]).holdings.get ⟨0, by decide⟩).name = "New Name" ∧
    ((mergeConnection aggC7 [] [] [secC7new]).holdings.get ⟨0, by decide⟩).symbol = some "NEW" ∧
    (mergeConnection aggC7 [] [] [secC7new]).securities = [secC7old] ++ [secC7new] ∧
    (∀ (l1 l2 : List PlaidSecurity) (sid2 : String) (s2 : PlaidSecurity),
        lookupSecurity l2 sid2 = some s2 → lookupSecurity (l1 ++ l2) sid2 = some s2) ∧
    (∀ (l : List PlaidSecurity) (s2 : PlaidSecurity),
        lookupSecurity (l ++ [s2]) s2.security_id = some s2) :=
  c7_securities_backfill aggC7 [] [] [secC7new] 0 (by decide) (by decide) "S1" secC7new
    rfl (by decide) rfl

/-! ## Claim C8: account insert without echoed row -/

/-- The freshly inserted account row is found by the natural-key re-query
when the first select came back empty. -/
theorem selectAccounts_insert_of_empty (s : Store) (u : String) (a : PlaidAccount)
    (hsel : selectAccounts s u a.account_id = []) :
    selectAccounts (insertAccount s u a) u a.account_id = [mkAccountRow s.nextId u a] := by
  unfold selectAccounts insertAccount at *
  rw [List.filter_append, hsel]
  simp [mkAccountRow, setAccountFields]

/-- C8: when the account select finds no row and the insert does not echo
the inserted row, the adapter re-queries by the natural key: if the write
landed, the recovered internal id is the fresh id and the holdings of the
account are persisted under it; if the write was lost (the re-query also
yields nothing), the adapter skips the holdings of this account entirely
and continues with the remaining accounts without raising. -/
theorem c8_insert_no_echo (beh : InsBeh) (u : String) (hs : List PlaidHolding)
    (a : PlaidAccount) (rest : List PlaidAccount) (s : Store) (c : Nat)
    (hsel : selectAccounts s u a.account_id = []) :
    (beh c = .writeNoEcho →
      runAccounts beh u hs (a :: rest) s c =
        (let s1 := insertAccount s u a
         let out := runHoldings beh s.nextId
           (hs.filter (fun h => h.account_id = a.account_id)) s1 (c + 1)
         if out.2.2 then out else runAccounts beh u hs rest out.1 out.2.1)) ∧
    (beh c = .lostNoEcho →
      runAccounts beh u hs (a :: rest) s c = runAccounts beh u hs rest s (c + 1)) := by
  constructor
  · intro hbeh
    simp only [runAccounts]
    rw [hsel]
    dsimp only
    rw [hbeh]
    dsimp only
    rw [selectAccounts_insert_of_empty s u a hsel]
    rfl
  · intro hbeh
    simp only [runAccounts]
    rw [hsel]
    dsimp only
    rw [hbeh]

/-- Fixture account for C8. -/
def acctC8 : PlaidAccount := ⟨"acc8", "IRA", "investment", some "ira", 500, "USD"⟩

/-- Fixture holding for C8 belonging to the fixture account. -/
def holdC8 : PlaidHolding := ⟨"acc8", some "S8", some "VOO", "Vanguard", 3, 100, 300, some 240⟩

/-- Driver for C8: the first insert writes without echoing, later inserts
echo. -/
def behC8 : InsBeh := fun n => if n = 0 then .writeNoEcho else .echo

/-- Witness for C8: with an empty store, the no-echo insert is recovered by
the re-query and the holdings land under the fresh internal id. -/
theorem c8_witness :
    (behC8 0 = .writeNoEcho →
      runAccounts behC8 "u8" [holdC8] [acctC8] store0 0 =
        (let s1 := insertAccount store0 "u8" acctC8
         let out := runHoldings behC8 store0.nextId
           ([holdC8].filter (fun h => h.account_id = acctC8.account_id)) s1 (0 + 1)
         if out.2.2 then out else runAccounts behC8 "u8" [holdC8] [] out.1 out.2.1)) ∧
    (behC8 0 = .lostNoEcho →
      runAccounts behC8 "u8" [holdC8] [acctC8] store0 0 =
        runAccounts behC8 "u8" [holdC8] [] store0 (0 + 1)) :=
  c8_insert_no_echo behC8 "u8" [holdC8] acctC8 [] store0 0 rfl

/-! ## Store invariants: key skeletons

The natural keys of the two tables (with internal ids) as projections;
everything the selects depend on factors through them. -/

/-- Key projection of an account row: internal id and natural key. -/
def keyA (r : AccountRow) : Nat × String × String := (r.id, r.user_id, r.plaid_account_id)

/-- Key projection of a holding row: internal id and upsert key. -/
def keyH (r : HoldingRow) : Nat × Nat × String := (r.id, r.account_id, r.symbol)

/-- Account key skeleton of a store. -/
def skA (s : Store) : List (Nat × String × String) := s.accounts.map keyA

/-- Holding key skeleton of a store. -/
def skH (s : Store) : List (Nat × Nat × String) := s.holdings.map keyH

/-- Natural keys of the account rows. -/
def pairsA (s : Store) : List (String × String) :=
  s.accounts.map (fun r => (r.user_id, r.plaid_account_id))

/-- Upsert keys of the holding rows. -/
def pairsH (s : Store) : List (Nat × String) :=
  s.holdings.map (fun r => (r.account_id, r.symbol))

/-- Well-formed store: internal ids are database primary keys (no
duplicates) and below the id sequence. -/
def WFStore (s : Store) : Prop :=
  (s.accounts.map (fun r => r.id)).Nodup ∧ (s.holdings.map (fun r => r.id)).Nodup ∧
  (∀ r ∈ s.accounts, r.id < s.nextId) ∧ (∀ r ∈ s.holdings, r.id < s.nextId)

/-- Internal id the code would resolve for an account key by taking the
head of the natural-key select. -/
def accHead (s : Store) (u aid : String) : Option Nat :=
  (selectAccounts s u aid).head?.map (fun r => r.id)

/-- The account select commutes with the key projection. -/
theorem selectAccounts_map_keyA (s : Store) (u aid : String) :
    (selectAccounts s u aid).map keyA =
      (skA s).filter (fun k => k.2.1 = u ∧ k.2.2 = aid) := by
  unfold selectAccounts skA
  induction s.accounts with
  | nil => rfl
  | cons r t ih =>
      by_cases h : r.user_id = u ∧ r.plaid_account_id = aid
      · have hb : decide (r.user_id = u ∧ r.plaid_account_id = aid) = true := by
          simp [h.1, h.2]
        have hb2 : decide ((keyA r).2.1 = u ∧ (keyA r).2.2 = aid) = true := by
          simp [keyA, h.1, h.2]
        simp only [List.filter_cons, List.map_cons, hb, hb2, if_true, ih]
      · have hb : decide (r.user_id = u ∧ r.plaid_account_id = aid) = false :=
          decide_eq_false h
        have hb2 : decide ((keyA r).2.1 = u ∧ (keyA r).2.2 = aid) = false := by
          apply decide_eq_false
          simpa [keyA] using h
        simp only [List.filter_cons, List.map_cons, hb, hb2, Bool.false_eq_true, if_false]
        exact ih

/-- The holding select commutes with the key projection. -/
theorem selectHoldings_map_keyH (s : Store) (i : Nat) (sym : String) :
    (selectHoldings s i sym).map keyH =
      (skH s).filter (fun k => k.2.1 = i ∧ k.2.2 = sym) := by
  unfold selectHoldings skH
  induction s.holdings with
  | nil => rfl
  | cons r t ih =>
      by_cases h : r.account_id = i ∧ r.symbol = sym
      · have hb : decide (r.account_id = i ∧ r.symbol = sym) = true := by
          simp [h.1, h.2]
        have hb2 : decide ((keyH r).2.1 = i ∧ (keyH r).2.2 = sym) = true := by
          simp [keyH, h.1, h.2]
        simp only [List.filter_cons, List.map_cons, hb, hb2, if_true, ih]
      · have hb : decide (r.account_id = i ∧ r.symbol = sym) = false :=
          decide_eq_false h
        have hb2 : decide ((keyH r).2.1 = i ∧ (keyH r).2.2 = sym) = false := by
          apply decide_eq_false
          simpa [keyH] using h
        simp only [List.filter_cons, List.map_cons, hb, hb2, Bool.false_eq_true, if_false]
        exact ih

/-- Emptiness of the account select is determined by the key skeleton. -/
theorem selectAccounts_eq_nil_of_skA (s1 s2 : Store) (u aid : String)
    (h : skA s1 = skA s2) :
    selectAccounts s1 u aid = [] ↔ selectAccounts s2 u aid = [] := by
  have h1 := selectAccounts_map_keyA s1 u aid
  have h2 := selectAccounts_map_keyA s2 u aid
  rw [h] at h1
  constructor <;> intro hx
  · rw [hx] at h1
    rcases List.map_eq_nil_iff.mp (h2.trans h1.symm) with h3
    exact h3
  · rw [hx] at h2
    rcases List.map_eq_nil_iff.mp (h1.trans h2.symm) with h3
    exact h3

/-- Emptiness of the holding select is determined by the key skeleton. -/
theorem selectHoldings_eq_nil_of_skH (s1 s2 : Store) (i : Nat) (sym : String)
    (h : skH s1 = skH s2) :
    selectHoldings s1 i sym = [] ↔ selectHoldings s2 i sym = [] := by
  have h1 := selectHoldings_map_keyH s1 i sym
  have h2 := selectHoldings_map_keyH s2 i sym
  rw [h] at h1
  constructor <;> intro hx
  · rw [hx] at h1
    exact List.map_eq_nil_iff.mp (h2.trans h1.symm)
  · rw [hx] at h2
    exact List.map_eq_nil_iff.mp (h1.trans h2.symm)

/-- The resolved head id is determined by the key skeleton. -/
theorem accHead_of_skA (s1 s2 : Store) (u aid : String) (h : skA s1 = skA s2) :
    accHead s1 u aid = accHead s2 u aid := by
  have h1 := selectAccounts_map_keyA s1 u aid
  have h2 := selectAccounts_map_keyA s2 u aid
  rw [h] at h1
  have hk : (selectAccounts s1 u aid).map keyA = (selectAccounts s2 u aid).map keyA :=
    h1.trans h2.symm
  unfold accHead
  have hh : ((selectAccounts s1 u aid).map keyA).head? =
      ((selectAccounts s2 u aid).map keyA).head? := by rw [hk]
  rw [List.head?_map, List.head?_map] at hh
  cases hx : (selectAccounts s1 u aid).head? with
  | none =>
      rw [hx] at hh
      cases hy : (selectAccounts s2 u aid).head? with
      | none => rfl
      | some r2 => rw [hy] at hh; cases hh
  | some r1 =>
      rw [hx] at hh
      cases hy : (selectAccounts s2 u aid).head? with
      | none => rw [hy] at hh; cases hh
      | some r2 =>
          rw [hy] at hh
          have hk : keyA r1 = keyA r2 := Option.some.inj hh
          have hid : r1.id = r2.id := congrArg Prod.fst hk
          show some r1.id = some r2.id
          rw [hid]

/-- Nonemptiness of the holding select survives appending to the key
skeleton. -/
theorem selectHoldings_ne_nil_of_append (s1 s2 : Store) (i : Nat) (sym : String)
    (e : List (Nat × Nat × String)) (hext : skH s2 = skH s1 ++ e)
    (hne : selectHoldings s1 i sym ≠ []) : selectHoldings s2 i sym ≠ [] := by
  have h1 := selectHoldings_map_keyH s1 i sym
  have h2 := selectHoldings_map_keyH s2 i sym
  rw [hext, List.filter_append] at h2
  intro hx
  rw [hx, List.map_nil] at h2
  have : (skH s1).filter (fun k => k.2.1 = i ∧ k.2.2 = sym) = [] :=
    (List.append_eq_nil.mp h2.symm).1
  rw [← h1] at this
  exact hne (List.map_eq_nil_iff.mp this)

/-- The resolved head id survives appending to the key skeleton. -/
theorem accHead_of_append (s1 s2 : Store) (u aid : String) (i : Nat)
    (e : List (Nat × String × String)) (hext : skA s2 = skA s1 ++ e)
    (hh : accHead s1 u aid = some i) : accHead s2 u aid = some i := by
  have h1 := selectAccounts_map_keyA s1 u aid
  have h2 := selectAccounts_map_keyA s2 u aid
  rw [hext, List.filter_append] at h2
  have hne : (selectAccounts s1 u aid) ≠ [] := by
    intro hx
    unfold accHead at hh
    rw [hx] at hh
    cases hh
  have hne2 : (skA s1).filter (fun k => k.2.1 = u ∧ k.2.2 = aid) ≠ [] := by
    rw [← h1]
    simp [List.map_eq_nil_iff, hne]
  have hkeys : (selectAccounts s2 u aid).map keyA =
      ((selectAccounts s1 u aid).map keyA) ++
        ((e.filter (fun k => k.2.1 = u ∧ k.2.2 = aid))) := by
    rw [h2, h1]
  have hhd : ((selectAccounts s2 u aid).map keyA).head? =
      ((selectAccounts s1 u aid).map keyA).head? := by
    rw [hkeys]
    exact List.head?_append_of_ne_nil _ (by rw [h1]; exact hne2)
  rw [List.head?_map, List.head?_map] at hhd
  unfold accHead at hh ⊢
  cases hx : (selectAccounts s1 u aid).head? with
  | none => rw [hx] at hh; cases hh
  | some r1 =>
      rw [hx] at hh
      cases hy : (selectAccounts s2 u aid).head? with
      | none => rw [hy, hx] at hhd; cases hhd
      | some r2 =>
          rw [hy, hx] at hhd
          have hk : keyA r2 = keyA r1 := Option.some.inj hhd
          have hid : r2.id = r1.id := congrArg Prod.fst hk
          have hh2 : some r1.id = some i := hh
          show some r2.id = some i
          rw [hid]
          exact hh2

/-! ## Effect of the four store operations on skeletons and invariants -/

/-- A head of the holding select is a row with the selected key. -/
theorem selectHoldings_head_mem (s : Store) (i : Nat) (sym : String) (r : HoldingRow)
    (tail : List HoldingRow) (h : selectHoldings s i sym = r :: tail) :
    r ∈ s.holdings ∧ r.account_id = i ∧ r.symbol = sym := by
  have hr : r ∈ selectHoldings s i sym := by
    rw [h]
    exact List.mem_cons_self r tail
  unfold selectHoldings at hr
  have := List.mem_filter.mp hr
  refine ⟨this.1, ?_, ?_⟩
  · exact (of_decide_eq_true this.2).1
  · exact (of_decide_eq_true this.2).2

/-- A head of the account select is a row with the selected key. -/
theorem selectAccounts_head_mem (s : Store) (u aid : String) (r : AccountRow)
    (tail : List AccountRow) (h : selectAccounts s u aid = r :: tail) :
    r ∈ s.accounts ∧ r.user_id = u ∧ r.plaid_account_id = aid := by
  have hr : r ∈ selectAccounts s u aid := by
    rw [h]
    exact List.mem_cons_self r tail
  unfold selectAccounts at hr
  have := List.mem_filter.mp hr
  refine ⟨this.1, ?_, ?_⟩
  · exact (of_decide_eq_true this.2).1
  · exact (of_decide_eq_true this.2).2

/-- Updating an account row whose key matches the written key leaves the
account skeleton unchanged. -/
theorem skA_updateAccount (s : Store) (r : AccountRow) (u : String) (a : PlaidAccount)
    (hnd : (s.accounts.map (fun x => x.id)).Nodup) (hmem : r ∈ s.accounts)
    (h1 : r.user_id = u) (h2 : r.plaid_account_id = a.account_id) :
    skA (updateAccount s r.id u a) = skA s := by
  unfold skA updateAccount
  dsimp only
  rw [List.map_map]
  apply List.map_congr_left
  intro x hx
  by_cases hid : x.id = r.id
  · have hxr : x = r := List.inj_on_of_nodup_map hnd hx hmem hid
    subst hxr
    simp [keyA, setAccountFields, h1, h2]
  · simp [Function.comp, hid]

/-- Updating a holding row whose key matches the written key leaves the
holding skeleton unchanged. -/
theorem skH_updateHolding (s : Store) (r : HoldingRow) (dbid : Nat) (h : PlaidHolding)
    (hnd : (s.holdings.map (fun x => x.id)).Nodup) (hmem : r ∈ s.holdings)
    (h1 : r.account_id = dbid) (h2 : r.symbol = symKey h) :
    skH (updateHolding s r.id dbid h) = skH s := by
  unfold skH updateHolding
  dsimp only
  rw [List.map_map]
  apply List.map_congr_left
  intro x hx
  by_cases hid : x.id = r.id
  · have hxr : x = r := List.inj_on_of_nodup_map hnd hx hmem hid
    subst hxr
    simp [keyH, setHoldingFields, h1, h2]
  · simp [Function.comp, hid]

/-- Inserting an account appends its key to the account skeleton. -/
theorem skA_insertAccount (s : Store) (u : String) (a : PlaidAccount) :
    skA (insertAccount s u a) = skA s ++ [(s.nextId, u, a.account_id)] := by
  simp [skA, insertAccount, mkAccountRow, setAccountFields, keyA]

/-- Inserting a holding appends its key to the holding skeleton. -/
theorem skH_insertHolding (s : Store) (dbid : Nat) (h : PlaidHolding) :
    skH (insertHolding s dbid h) = skH s ++ [(s.nextId, dbid, symKey h)] := by
  simp [skH, insertHolding, mkHoldingRow, setHoldingFields, keyH]

/-- Account updates preserve well-formedness. -/
theorem WF_updateAccount (s : Store) (i : Nat) (u : String) (a : PlaidAccount)
    (h : WFStore s) : WFStore (updateAccount s i u a) := by
  obtain ⟨h1, h2, h3, h4⟩ := h
  have hids : (updateAccount s i u a).accounts.map (fun r => r.id) =
      s.accounts.map (fun r => r.id) := by
    unfold updateAccount
    dsimp only
    rw [List.map_map]
    apply List.map_congr_left
    intro x hx
    by_cases hid : x.id = i <;> simp [Function.comp, hid, setAccountFields]
  refine ⟨by rw [hids]; exact h1, h2, ?_, h4⟩
  intro r hr
  unfold updateAccount at hr
  dsimp only at hr
  obtain ⟨x, hx, rfl⟩ := List.mem_map.mp hr
  by_cases hid : x.id = i
  · simpa [hid, setAccountFields] using h3 x hx
  · simpa [hid] using h3 x hx

/-- Holding updates preserve well-formedness. -/
theorem WF_updateHolding (s : Store) (i dbid : Nat) (h2h : PlaidHolding)
    (h : WFStore s) : WFStore (updateHolding s i dbid h2h) := by
  obtain ⟨h1, h2, h3, h4⟩ := h
  have hids : (updateHolding s i dbid h2h).holdings.map (fun r => r.id) =
      s.holdings.map (fun r => r.id) := by
    unfold updateHolding
    dsimp only
    rw [List.map_map]
    apply List.map_congr_left
    intro x hx
    by_cases hid : x.id = i <;> simp [Function.comp, hid, setHoldingFields]
  refine ⟨h1, by rw [hids]; exact h2, h3, ?_⟩
  intro r hr
  unfold updateHolding at hr
  dsimp only at hr
  obtain ⟨x, hx, rfl⟩ := List.mem_map.mp hr
  by_cases hid : x.id = i
  · simpa [hid, setHoldingFields] using h4 x hx
  · simpa [hid] using h4 x hx

/-- Account inserts preserve well-formedness. -/
theorem WF_insertAccount (s : Store) (u : String) (a : PlaidAccount)
    (h : WFStore s) : WFStore (insertAccount s u a) := by
  obtain ⟨h1, h2, h3, h4⟩ := h
  refine ⟨?_, h2, ?_, ?_⟩
  · show ((s.accounts ++ [mkAccountRow s.nextId u a]).map (fun r => r.id)).Nodup
    rw [List.map_append, List.nodup_append]
    refine ⟨h1, List.nodup_singleton _, ?_⟩
    intro y hy hy2
    obtain ⟨x, hx, rfl⟩ := List.mem_map.mp hy
    have hb := h3 x hx
    have : x.id = s.nextId := by
      simpa [mkAccountRow, setAccountFields] using hy2
    omega
  · intro r hr
    show r.id < s.nextId + 1
    rcases List.mem_append.mp hr with hr1 | hr2
    · have := h3 r hr1
      omega
    · have : r = mkAccountRow s.nextId u a := List.mem_singleton.mp hr2
      subst this
      simp [mkAccountRow, setAccountFields]
  · intro r hr
    have := h4 r hr
    show r.id < s.nextId + 1
    omega

/-- Holding inserts preserve well-formedness. -/
theorem WF_insertHolding (s : Store) (dbid : Nat) (hh : PlaidHolding)
    (h : WFStore s) : WFStore (insertHolding s dbid hh) := by
  obtain ⟨h1, h2, h3, h4⟩ := h
  refine ⟨h1, ?_, ?_, ?_⟩
  · show ((s.holdings ++ [mkHoldingRow s.nextId dbid hh]).map (fun r => r.id)).Nodup
    rw [List.map_append, List.nodup_append]
    refine ⟨h2, List.nodup_singleton _, ?_⟩
    intro y hy hy2
    obtain ⟨x, hx, rfl⟩ := List.mem_map.mp hy
    have hb := h4 x hx
    have : x.id = s.nextId := by
      simpa [mkHoldingRow, setHoldingFields] using hy2
    omega
  · intro r hr
    have := h3 r hr
    show r.id < s.nextId + 1
    omega
  · intro r hr
    show r.id < s.nextId + 1
    rcases List.mem_append.mp hr with hr1 | hr2
    · have := h4 r hr1
      omega
    · have : r = mkHoldingRow s.nextId dbid hh := List.mem_singleton.mp hr2
      subst this
      simp [mkHoldingRow, setHoldingFields]

/-- The natural-key list of accounts factors through the skeleton. -/
theorem pairsA_eq_skA (s : Store) : pairsA s = (skA s).map (fun k => k.2) := by
  unfold pairsA skA
  rw [List.map_map]
  rfl

/-- The upsert-key list of holdings factors through the skeleton. -/
theorem pairsH_eq_skH (s : Store) : pairsH s = (skH s).map (fun k => k.2) := by
  unfold pairsH skH
  rw [List.map_map]
  rfl

/-- An empty holding select means the upsert key is absent. -/
theorem pairH_not_mem_of_select_nil (s : Store) (dbid : Nat) (sym : String)
    (h : selectHoldings s dbid sym = []) : (dbid, sym) ∉ pairsH s := by
  intro hmem
  obtain ⟨r, hr, hpair⟩ := List.mem_map.mp hmem
  have hp1 : r.account_id = dbid := congrArg Prod.fst hpair
  have hp2 : r.symbol = sym := congrArg Prod.snd hpair
  have hsel : r ∈ selectHoldings s dbid sym := by
    unfold selectHoldings
    rw [List.mem_filter]
    exact ⟨hr, decide_eq_true ⟨hp1, hp2⟩⟩
  rw [h] at hsel
  cases hsel

/-- An empty account select means the natural key is absent. -/
theorem pairA_not_mem_of_select_nil (s : Store) (u aid : String)
    (h : selectAccounts s u aid = []) : (u, aid) ∉ pairsA s := by
  intro hmem
  obtain ⟨r, hr, hpair⟩ := List.mem_map.mp hmem
  have hp1 : r.user_id = u := congrArg Prod.fst hpair
  have hp2 : r.plaid_account_id = aid := congrArg Prod.snd hpair
  have hsel : r ∈ selectAccounts s u aid := by
    unfold selectAccounts
    rw [List.mem_filter]
    exact ⟨hr, decide_eq_true ⟨hp1, hp2⟩⟩
  rw [h] at hsel
  cases hsel

/-! ## First pass of the holdings loop under the echo driver -/

/-- Running the holdings sub-loop with an echoing driver never aborts,
preserves well-formedness and the rows of the accounts table, only appends
to the holding key skeleton, never creates a duplicate upsert key, and
leaves every processed holding with a nonempty key select. -/
theorem runHoldings_echo (dbid : Nat) :
    ∀ (hs : List PlaidHolding) (s : Store) (c : Nat), WFStore s →
      ∃ S c2, runHoldings echoBeh dbid hs s c = (S, c2, false) ∧ WFStore S ∧
        S.accounts = s.accounts ∧ (∃ e, skH S = skH s ++ e) ∧ s.nextId ≤ S.nextId ∧
        ((pairsH s).Nodup → (pairsH S).Nodup) ∧
        (∀ h2 ∈ hs, selectHoldings S dbid (symKey h2) ≠ []) := by
  intro hs
  induction hs with
  | nil =>
      intro s c hwf
      exact ⟨s, c, rfl, hwf, rfl, ⟨[], by simp⟩, le_refl _, fun hn => hn, by simp⟩
  | cons h t ih =>
      intro s c hwf
      cases hsel : selectHoldings s dbid (symKey h) with
      | cons r tail =>
          obtain ⟨hmem, hk1, hk2⟩ := selectHoldings_head_mem s dbid (symKey h) r tail hsel
          have hskH : skH (updateHolding s r.id dbid h) = skH s :=
            skH_updateHolding s r dbid h hwf.2.1 hmem hk1 hk2
          have hwf1 : WFStore (updateHolding s r.id dbid h) :=
            WF_updateHolding s r.id dbid h hwf
          obtain ⟨S, c2, hrun, hwfS, hacc, ⟨e, hext⟩, hnext, hpairs, hcov⟩ :=
            ih (updateHolding s r.id dbid h) c hwf1
          refine ⟨S, c2, ?_, hwfS, hacc, ⟨e, by rw [hext, hskH]⟩, hnext, ?_, ?_⟩
          · simp only [runHoldings, hsel]
            exact hrun
          · intro hn
            apply hpairs
            have hps : pairsH (updateHolding s r.id dbid h) = pairsH s := by
              rw [pairsH_eq_skH, pairsH_eq_skH, hskH]
            rw [hps]
            exact hn
          · intro h2 hh2
            rcases List.mem_cons.mp hh2 with rfl | hmem2
            · have hne1 : selectHoldings (updateHolding s r.id dbid h2) dbid (symKey h2) ≠ [] := by
                intro hnil
                have := (selectHoldings_eq_nil_of_skH _ s dbid (symKey h2) hskH).mp hnil
                rw [hsel] at this
                cases this
              exact selectHoldings_ne_nil_of_append _ S dbid (symKey h2) e hext hne1
            · exact hcov h2 hmem2
      | nil =>
          have hwf1 : WFStore (insertHolding s dbid h) := WF_insertHolding s dbid h hwf
          obtain ⟨S, c2, hrun, hwfS, hacc, ⟨e, hext⟩, hnext, hpairs, hcov⟩ :=
            ih (insertHolding s dbid h) (c + 1) hwf1
          refine ⟨S, c2, ?_, hwfS, hacc,
            ⟨(s.nextId, dbid, symKey h) :: e, ?_⟩, ?_, ?_, ?_⟩
          · simp only [runHoldings, hsel]
            exact hrun
          · rw [hext, skH_insertHolding]
            simp
          · have hn2 : s.nextId + 1 ≤ S.nextId := hnext
            omega
          · intro hn
            apply hpairs
            have hps : pairsH (insertHolding s dbid h) = pairsH s ++ [(dbid, symKey h)] := by
              unfold pairsH insertHolding
              simp [mkHoldingRow, setHoldingFields]
            rw [hps, List.nodup_append]
            refine ⟨hn, List.nodup_singleton _, ?_⟩
            intro y hy hy2
            have hyy : y = (dbid, symKey h) := List.mem_singleton.mp hy2
            subst hyy
            exact pairH_not_mem_of_select_nil s dbid (symKey h) hsel hy
          · intro h2 hh2
            rcases List.mem_cons.mp hh2 with rfl | hmem2
            · have hne1 : selectHoldings (insertHolding s dbid h2) dbid (symKey h2) ≠ [] := by
                intro hnil
                have hmm : mkHoldingRow s.nextId dbid h2 ∈
                    selectHoldings (insertHolding s dbid h2) dbid (symKey h2) := by
                  unfold selectHoldings insertHolding
                  rw [List.mem_filter]
                  refine ⟨by simp, ?_⟩
                  apply decide_eq_true
                  exact ⟨rfl, rfl⟩
                rw [hnil] at hmm
                cases hmm
              exact selectHoldings_ne_nil_of_append _ S dbid (symKey h2) e hext hne1
            · exact hcov h2 hmem2

/-! ## First pass of the account loop under the echo driver -/

/-- Running the account loop with an echoing driver never aborts, preserves
well-formedness, only appends to both key skeletons, never creates a
duplicate natural or upsert key, and leaves every processed account with a
resolvable head id under which all of its holdings have nonempty key
selects. -/
theorem runAccounts_echo (u : String) (hs : List PlaidHolding) :
    ∀ (as2 : List PlaidAccount) (s : Store) (c : Nat), WFStore s →
      ∃ S c2, runAccounts echoBeh u hs as2 s c = (S, c2, false) ∧ WFStore S ∧
        (∃ e, skA S = skA s ++ e) ∧ (∃ e, skH S = skH s ++ e) ∧ s.nextId ≤ S.nextId ∧
        ((pairsA s).Nodup → (pairsA S).Nodup) ∧
        ((pairsH s).Nodup → (pairsH S).Nodup) ∧
        (∀ a ∈ as2, ∃ i, accHead S u a.account_id = some i ∧
           ∀ h2 ∈ hs, h2.account_id = a.account_id → selectHoldings S i (symKey h2) ≠ []) := by
  intro as2
  induction as2 with
  | nil =>
      intro s c hwf
      exact ⟨s, c, rfl, hwf, ⟨[], by simp⟩, ⟨[], by simp⟩, le_refl _,
        fun hn => hn, fun hn => hn, by simp⟩
  | cons a rest ih =>
      intro s c hwf
      cases hsel : selectAccounts s u a.account_id with
      | cons r tail =>
          obtain ⟨hmem, hu2, hpl⟩ := selectAccounts_head_mem s u a.account_id r tail hsel
          have hskA1 : skA (updateAccount s r.id u a) = skA s :=
            skA_updateAccount s r u a hwf.1 hmem hu2 hpl
          have hwf1 : WFStore (updateAccount s r.id u a) := WF_updateAccount s r.id u a hwf
          obtain ⟨s2, c2, hrunH, hwf2, hacc2, ⟨e2, hextH⟩, hnext2, hpairsH2, hcov2⟩ :=
            runHoldings_echo r.id (hs.filter (fun h3 => h3.account_id = a.account_id))
              (updateAccount s r.id u a) c hwf1
          obtain ⟨S, c3, hrunA, hwfS, ⟨eA, hextA⟩, ⟨eH, hextH2⟩, hnext3, hpA3, hpH3, hcov3⟩ :=
            ih s2 c2 hwf2
          have hskA2 : skA s2 = skA s := by
            have hx : skA s2 = skA (updateAccount s r.id u a) := by
              unfold skA
              rw [hacc2]
            rw [hx, hskA1]
          have hskH2 : skH s2 = skH s ++ e2 := hextH
          refine ⟨S, c3, ?_, hwfS, ⟨eA, by rw [hextA, hskA2]⟩,
            ⟨e2 ++ eH, by rw [hextH2, hskH2, List.append_assoc]⟩, ?_, ?_, ?_, ?_⟩
          · simp only [runAccounts, hsel, hrunH, Bool.false_eq_true, if_false]
            exact hrunA
          · have h1 : s.nextId ≤ s2.nextId := hnext2
            omega
          · intro hn
            apply hpA3
            have hx : pairsA s2 = pairsA s := by
              rw [pairsA_eq_skA, pairsA_eq_skA, hskA2]
            rw [hx]
            exact hn
          · intro hn
            exact hpH3 (hpairsH2 hn)
          · intro a2 ha2
            rcases List.mem_cons.mp ha2 with haa | hmem2
            · subst haa
              refine ⟨r.id, ?_, ?_⟩
              · have hh0 : accHead s u a2.account_id = some r.id := by
                  unfold accHead
                  rw [hsel]
                  rfl
                have hh2 : accHead s2 u a2.account_id = some r.id := by
                  rw [accHead_of_skA s2 s u a2.account_id hskA2]
                  exact hh0
                exact accHead_of_append s2 S u a2.account_id r.id eA hextA hh2
              · intro h2 hh2 hacct
                have hmf : h2 ∈ hs.filter (fun h3 => h3.account_id = a2.account_id) :=
                  List.mem_filter.mpr ⟨hh2, decide_eq_true hacct⟩
                exact selectHoldings_ne_nil_of_append s2 S r.id (symKey h2) eH hextH2
                  (hcov2 h2 hmf)
            · exact hcov3 a2 hmem2
      | nil =>
          have hwf1 : WFStore (insertAccount s u a) := WF_insertAccount s u a hwf
          obtain ⟨s2, c2, hrunH, hwf2, hacc2, ⟨e2, hextH⟩, hnext2, hpairsH2, hcov2⟩ :=
            runHoldings_echo s.nextId (hs.filter (fun h3 => h3.account_id = a.account_id))
              (insertAccount s u a) (c + 1) hwf1
          obtain ⟨S, c3, hrunA, hwfS, ⟨eA, hextA⟩, ⟨eH, hextH2⟩, hnext3, hpA3, hpH3, hcov3⟩ :=
            ih s2 c2 hwf2
          have hskA2 : skA s2 = skA s ++ [(s.nextId, u, a.account_id)] := by
            have hx : skA s2 = skA (insertAccount s u a) := by
              unfold skA
              rw [hacc2]
            rw [hx, skA_insertAccount]
          have hskH2 : skH s2 = skH s ++ e2 := hextH
          refine ⟨S, c3, ?_, hwfS, ⟨(s.nextId, u, a.account_id) :: eA, ?_⟩,
            ⟨e2 ++ eH, by rw [hextH2, hskH2, List.append_assoc]⟩, ?_, ?_, ?_, ?_⟩
          · simp only [runAccounts, hsel, hrunH, Bool.false_eq_true, if_false]
            exact hrunA
          · rw [hextA, hskA2, List.append_assoc]
            rfl
          · have h1 : s.nextId + 1 ≤ s2.nextId := hnext2
            omega
          · intro hn
            apply hpA3
            have hps : pairsA s2 = pairsA s ++ [(u, a.account_id)] := by
              rw [pairsA_eq_skA, hskA2, List.map_append, ← pairsA_eq_skA]
              rfl
            rw [hps, List.nodup_append]
            refine ⟨hn, List.nodup_singleton _, ?_⟩
            intro y hy hy2
            have hyy : y = (u, a.account_id) := List.mem_singleton.mp hy2
            subst hyy
            exact pairA_not_mem_of_select_nil s u a.account_id hsel hy
          · intro hn
            exact hpH3 (hpairsH2 hn)
          · intro a2 ha2
            rcases List.mem_cons.mp ha2 with haa | hmem2
            · subst haa
              refine ⟨s.nextId, ?_, ?_⟩
              · have hh1 : accHead (insertAccount s u a2) u a2.account_id = some s.nextId := by
                  unfold accHead
                  rw [selectAccounts_insert_of_empty s u a2 hsel]
                  rfl
                have hh2 : accHead s2 u a2.account_id = some s.nextId := by
                  have hsk : skA s2 = skA (insertAccount s u a2) := by
                    unfold skA
                    rw [hacc2]
                  rw [accHead_of_skA s2 (insertAccount s u a2) u a2.account_id hsk]
                  exact hh1
                exact accHead_of_append s2 S u a2.account_id s.nextId eA hextA hh2
              · intro h2 hh2 hacct
                have hmf : h2 ∈ hs.filter (fun h3 => h3.account_id = a2.account_id) :=
                  List.mem_filter.mpr ⟨hh2, decide_eq_true hacct⟩
                exact selectHoldings_ne_nil_of_append s2 S s.nextId (symKey h2) eH hextH2
                  (hcov2 h2 hmf)
            · exact hcov3 a2 hmem2

/-! ## Second pass: every select hits, so the loops only update -/

/-- Re-running the holdings sub-loop against a store whose holding skeleton
matches a reference store in which every processed holding key is present:
no insert happens (the call counter is unchanged), the skeleton is
untouched and nothing aborts. -/
theorem runHoldings_stable (dbid : Nat) :
    ∀ (hs : List PlaidHolding) (t : Store) (c : Nat) (s1 : Store), WFStore t →
      skH t = skH s1 →
      (∀ h2 ∈ hs, selectHoldings s1 dbid (symKey h2) ≠ []) →
      ∃ T, runHoldings echoBeh dbid hs t c = (T, c, false) ∧ WFStore T ∧
        T.accounts = t.accounts ∧ skH T = skH s1 ∧ T.nextId = t.nextId := by
  intro hs
  induction hs with
  | nil =>
      intro t c s1 hwf hsk _
      exact ⟨t, rfl, hwf, rfl, hsk, rfl⟩
  | cons h rest ih =>
      intro t c s1 hwf hsk hcov
      cases hselt : selectHoldings t dbid (symKey h) with
      | nil =>
          exfalso
          exact hcov h (List.mem_cons_self h rest)
            ((selectHoldings_eq_nil_of_skH s1 t dbid (symKey h) hsk.symm).mpr hselt)
      | cons r tail =>
          obtain ⟨hmem, hk1, hk2⟩ := selectHoldings_head_mem t dbid (symKey h) r tail hselt
          have hskU : skH (updateHolding t r.id dbid h) = skH t :=
            skH_updateHolding t r dbid h hwf.2.1 hmem hk1 hk2
          have hwfU : WFStore (updateHolding t r.id dbid h) := WF_updateHolding t r.id dbid h hwf
          obtain ⟨T, hrun, hwfT, haccT, hskT, hnT⟩ :=
            ih (updateHolding t r.id dbid h) c s1 hwfU (by rw [hskU, hsk])
              (fun h2 hh2 => hcov h2 (List.mem_cons_of_mem h hh2))
          refine ⟨T, ?_, hwfT, haccT, hskT, hnT⟩
          simp only [runHoldings, hselt]
          exact hrun

/-- Re-running the account loop against a store whose skeletons match a
reference store in which every processed account resolves and every
processed holding key is present: pure updates, no inserts, no abort,
skeletons unchanged. -/
theorem runAccounts_stable (u : String) (hs : List PlaidHolding) :
    ∀ (as2 : List PlaidAccount) (t : Store) (c : Nat) (s1 : Store), WFStore t →
      skA t = skA s1 → skH t = skH s1 →
      (∀ a ∈ as2, ∃ i, accHead s1 u a.account_id = some i ∧
         ∀ h2 ∈ hs, h2.account_id = a.account_id → selectHoldings s1 i (symKey h2) ≠ []) →
      ∃ T, runAccounts echoBeh u hs as2 t c = (T, c, false) ∧ WFStore T ∧
        skA T = skA s1 ∧ skH T = skH s1 ∧ T.nextId = t.nextId := by
  intro as2
  induction as2 with
  | nil =>
      intro t c s1 hwf hskA hskH _
      exact ⟨t, rfl, hwf, hskA, hskH, rfl⟩
  | cons a rest ih =>
      intro t c s1 hwf hskA hskH hcov
      obtain ⟨i, hhead, hcovh⟩ := hcov a (List.mem_cons_self a rest)
      have hheadt : accHead t u a.account_id = some i := by
        rw [accHead_of_skA t s1 u a.account_id hskA]
        exact hhead
      cases hselt : selectAccounts t u a.account_id with
      | nil =>
          exfalso
          unfold accHead at hheadt
          rw [hselt] at hheadt
          cases hheadt
      | cons r tail =>
          have hri : r.id = i := by
            unfold accHead at hheadt
            rw [hselt] at hheadt
            exact Option.some.inj hheadt
          obtain ⟨hmem, hu2, hpl⟩ := selectAccounts_head_mem t u a.account_id r tail hselt
          have hskAU : skA (updateAccount t r.id u a) = skA t :=
            skA_updateAccount t r u a hwf.1 hmem hu2 hpl
          have hwfU : WFStore (updateAccount t r.id u a) := WF_updateAccount t r.id u a hwf
          obtain ⟨T2, hrunH, hwfT2, haccT2, hskT2, hnT2⟩ :=
            runHoldings_stable r.id (hs.filter (fun h3 => h3.account_id = a.account_id))
              (updateAccount t r.id u a) c s1 hwfU (by rw [← hskH]; rfl)
              (by
                intro h2 hh2
                have hmf := List.mem_filter.mp hh2
                rw [hri]
                exact hcovh h2 hmf.1 (of_decide_eq_true hmf.2))
          have hskAT2 : skA T2 = skA s1 := by
            have hx : skA T2 = skA (updateAccount t r.id u a) := by
              unfold skA
              rw [haccT2]
            rw [hx, hskAU, hskA]
          obtain ⟨T, hrunA, hwfT, hskAT, hskHT, hnT⟩ :=
            ih T2 c s1 hwfT2 hskAT2 hskT2 (fun a2 ha2 => hcov a2 (List.mem_cons_of_mem a ha2))
          refine ⟨T, ?_, hwfT, hskAT, hskHT, ?_⟩
          · simp only [runAccounts, hselt, hrunH, Bool.false_eq_true, if_false]
            exact hrunA
          · rw [hnT, hnT2]
            rfl

/-- A list whose image under a key function has no duplicates has at most
one element with any given key. -/
theorem length_filter_le_one_of_nodup_map {α β : Type} [DecidableEq β]
    (f : α → β) (k : β) :
    ∀ l : List α, ((l.map f).Nodup) → (l.filter (fun r => f r = k)).length ≤ 1 := by
  intro l
  induction l with
  | nil => intro _; simp
  | cons a t ih =>
      intro h
      rw [List.map_cons, List.nodup_cons] at h
      by_cases hk : f a = k
      · have ht : t.filter (fun r => decide (f r = k)) = [] := by
          rw [List.filter_eq_nil_iff]
          intro x hx hdx
          have hfx : f x = k := of_decide_eq_true hdx
          exact h.1 (List.mem_map.mpr ⟨x, hx, by rw [hfx, hk]⟩)
        simp only [List.filter_cons, decide_eq_true hk, if_true, ht]
        simp
      · simp only [List.filter_cons, decide_eq_false hk, Bool.false_eq_true, if_false]
        exact ih h.2

/-! ## Claim C5: idempotent keyed upsert -/

/-- C5: against a well-formed store with primary-key-unique tables, one
store pass with an echoing driver (first sync) leaves the tables uniquely
keyed by (user_id, plaid_account_id) and (account_id, symbol); a second
pass with identical data performs no insert at all (the insert call count
is unchanged and both key skeletons, hence also the row counts, are
unchanged: rows are updated in place); at most one stored holding row per
internal account id carries the sentinel symbol; and every holding with an
unresolved symbol is keyed by the sentinel UNKNOWN. -/
theorem c5_idempotent_upsert (u : String) (as2 : List PlaidAccount) (hs : List PlaidHolding)
    (s : Store) (hwf : WFStore s) (hndA : (pairsA s).Nodup) (hndH : (pairsH s).Nodup) :
    ∃ S c1, runAccounts echoBeh u hs as2 s 0 = (S, c1, false) ∧
      (∀ c, ∃ T, runAccounts echoBeh u hs as2 S c = (T, c, false) ∧
         skA T = skA S ∧ skH T = skH S ∧
         T.accounts.length = S.accounts.length ∧ T.holdings.length = S.holdings.length) ∧
      (pairsA S).Nodup ∧ (pairsH S).Nodup ∧
      (∀ i : Nat,
        (S.holdings.filter (fun r => (r.account_id, r.symbol) = (i, "UNKNOWN"))).length ≤ 1) ∧
      (∀ h2 : PlaidHolding, h2.symbol = none → symKey h2 = "UNKNOWN") := by
  obtain ⟨S, c1, hrun, hwfS, _, _, _, hpA, hpH, hcov⟩ := runAccounts_echo u hs as2 s 0 hwf
  refine ⟨S, c1, hrun, ?_, hpA hndA, hpH hndH, ?_, ?_⟩
  · intro c
    obtain ⟨T, hrun2, hwfT, hskAT, hskHT, hnT⟩ :=
      runAccounts_stable u hs as2 S c S hwfS rfl rfl hcov
    refine ⟨T, hrun2, hskAT, hskHT, ?_, ?_⟩
    · have h1 : (skA T).length = (skA S).length := by rw [hskAT]
      simpa [skA, List.length_map] using h1
    · have h1 : (skH T).length = (skH S).length := by rw [hskHT]
      simpa [skH, List.length_map] using h1
  · intro i
    have hn : (S.holdings.map (fun r => (r.account_id, r.symbol))).Nodup := hpH hndH
    exact length_filter_le_one_of_nodup_map (fun r => (r.account_id, r.symbol))
      (i, "UNKNOWN") S.holdings hn
  · intro h2 hsym
    unfold symKey strOrDefault
    rw [hsym]

/-- The empty fixture store is well formed. -/
theorem WF_store0 : WFStore store0 :=
  ⟨List.nodup_nil, List.nodup_nil, fun r hr => absurd hr (List.not_mem_nil r),
   fun r hr => absurd hr (List.not_mem_nil r)⟩

/-- Fixture account for C5. -/
def acctC5 : PlaidAccount := ⟨"acc5", "Brokerage", "investment", some "brokerage", 1000, "USD"⟩

/-- Fixture holding with unresolved symbol (first). -/
def holdC5a : PlaidHolding := ⟨"acc5", some "Sa", none, "Unknown Security", 1, 5, 5, none⟩

/-- Fixture holding with unresolved symbol (second, same account). -/
def holdC5b : PlaidHolding := ⟨"acc5", some "Sb", none, "Unknown Security", 2, 7, 14, some 10⟩

/-- Witness for C5: two unresolved-symbol holdings on one account against
the empty store. -/
theorem c5_witness :
    ∃ S c1, runAccounts echoBeh "u5" [holdC5a, holdC5b] [acctC5] store0 0 = (S, c1, false) ∧
      (∀ c, ∃ T, runAccounts echoBeh "u5" [holdC5a, holdC5b] [acctC5] S c = (T, c, false) ∧
         skA T = skA S ∧ skH T = skH S ∧
         T.accounts.length = S.accounts.length ∧ T.holdings.length = S.holdings.length) ∧
      (pairsA S).Nodup ∧ (pairsH S).Nodup ∧
      (∀ i : Nat,
        (S.holdings.filter (fun r => (r.account_id, r.symbol) = (i, "UNKNOWN"))).length ≤ 1) ∧
      (∀ h2 : PlaidHolding, h2.symbol = none → symKey h2 = "UNKNOWN") :=
  c5_idempotent_upsert "u5" [acctC5] [holdC5a, holdC5b] store0 WF_store0 List.nodup_nil
    List.nodup_nil

/-! ## Claim C3: holdings-unsupported tolerance -/

/-- Accounts contributed by one connection (empty on failure). -/
def tokenAccounts (env : SyncEnv) (t : TokenRecord) : List PlaidAccount :=
  match env.decrypt t.access_token_encrypted with
  | .error _ => []
  | .ok tok =>
      match env.accountsGet tok with
      | .error _ => []
      | .ok l => l.map normalizeAccount

/-- Holdings contributed by one connection (empty on failure). -/
def tokenHoldings (env : SyncEnv) (t : TokenRecord) : List PlaidHolding :=
  match env.decrypt t.access_token_encrypted with
  | .error _ => []
  | .ok tok =>
      match env.holdingsGet tok with
      | .error _ => []
      | .ok hr => hr.holdings.map normalizeHolding

/-- Securities contributed by one connection (empty on failure). -/
def tokenSecurities (env : SyncEnv) (t : TokenRecord) : List PlaidSecurity :=
  match env.decrypt t.access_token_encrypted with
  | .error _ => []
  | .ok tok =>
      match env.holdingsGet tok with
      | .error _ => []
      | .ok hr => hr.securities.map normalizeSecurity

/-- Fields of a holding the backfill never touches. -/
def holdingCore (h : PlaidHolding) : String × Option String × ℚ × ℚ × ℚ × Option ℚ :=
  (h.account_id, h.security_id, h.quantity, h.price, h.value, h.cost_basis)

/-- A connection whose decrypt and accounts fetch succeed and whose
holdings fetch either succeeds or raises a provider (api) error. -/
def connOk (env : SyncEnv) (t : TokenRecord) : Prop :=
  ∃ tok, env.decrypt t.access_token_encrypted = .ok tok ∧
    (∃ l, env.accountsGet tok = .ok l) ∧
    ((∃ hr, env.holdingsGet tok = .ok hr) ∨ (∃ d, env.holdingsGet tok = .error (.api d)))

/-- The backfill leaves the core fields of a holding unchanged. -/
theorem holdingCore_applySecurities (secs : List PlaidSecurity) (h : PlaidHolding) :
    holdingCore (applySecurities secs h) = holdingCore h := by
  unfold applySecurities
  cases hsid : h.security_id with
  | none => rfl
  | some sid =>
      by_cases hz : sid = ""
      · simp [hz]
      · dsimp only
        rw [if_neg hz]
        cases hlook : lookupSecurity secs sid with
        | none => rfl
        | some s => simp [holdingCore, hsid]

/-- Mapping the core projection ignores the backfill. -/
theorem map_core_applySecurities (secs : List PlaidSecurity) (l : List PlaidHolding) :
    (l.map (applySecurities secs)).map holdingCore = l.map holdingCore := by
  rw [List.map_map]
  apply List.map_congr_left
  intro h _
  exact holdingCore_applySecurities secs h

/-- The connection loop succeeds when every connection is connOk, and the
aggregate is the concatenation of the per-connection contributions:
accounts and securities exactly, holdings up to the backfilled name and
symbol fields. -/
theorem processTokens_ok (env : SyncEnv) :
    ∀ (ts : List TokenRecord) (agg : Aggregate), (∀ t ∈ ts, connOk env t) →
      ∃ F, processTokens env ts agg = .ok F ∧
        F.accounts = agg.accounts ++ ts.flatMap (tokenAccounts env) ∧
        F.securities = agg.securities ++ ts.flatMap (tokenSecurities env) ∧
        F.holdings.map holdingCore =
          agg.holdings.map holdingCore ++
            (ts.flatMap (tokenHoldings env)).map holdingCore := by
  intro ts
  induction ts with
  | nil =>
      intro agg _
      exact ⟨agg, rfl, by simp, by simp, by simp⟩
  | cons t rest ih =>
      intro agg hok
      obtain ⟨tok, hd, ⟨l, ha⟩, hh⟩ := hok t (List.mem_cons_self t rest)
      have hta : tokenAccounts env t = l.map normalizeAccount := by
        unfold tokenAccounts
        rw [hd]
        dsimp only
        rw [ha]
      rcases hh with ⟨hr, hho⟩ | ⟨d, hhe⟩
      · have hth : tokenHoldings env t = hr.holdings.map normalizeHolding := by
          unfold tokenHoldings
          rw [hd]
          dsimp only
          rw [hho]
        have hts : tokenSecurities env t = hr.securities.map normalizeSecurity := by
          unfold tokenSecurities
          rw [hd]
          dsimp only
          rw [hho]
        have hpt : processToken env agg t = .ok (mergeConnection agg (l.map normalizeAccount)
            (hr.holdings.map normalizeHolding) (hr.securities.map normalizeSecurity)) := by
          unfold processToken
          rw [hd]
          dsimp only
          rw [ha]
          dsimp only
          rw [hho]
        obtain ⟨F, hPT, hFa, hFs, hFh⟩ := ih (mergeConnection agg (l.map normalizeAccount)
            (hr.holdings.map normalizeHolding) (hr.securities.map normalizeSecurity))
          (fun t2 ht2 => hok t2 (List.mem_cons_of_mem t ht2))
        refine ⟨F, ?_, ?_, ?_, ?_⟩
        · simp only [processTokens, hpt]
          exact hPT
        · rw [hFa, List.flatMap_cons, hta]
          simp [mergeConnection, List.append_assoc]
        · rw [hFs, List.flatMap_cons, hts]
          simp [mergeConnection, List.append_assoc]
        · rw [hFh, List.flatMap_cons]
          have hmc : (mergeConnection agg (l.map normalizeAccount)
              (hr.holdings.map normalizeHolding)
              (hr.securities.map normalizeSecurity)).holdings.map holdingCore =
              agg.holdings.map holdingCore ++
                (hr.holdings.map normalizeHolding).map holdingCore := by
            show ((agg.holdings ++ hr.holdings.map normalizeHolding).map
              (applySecurities (agg.securities ++ hr.securities.map normalizeSecurity))).map
                holdingCore = _
            rw [map_core_applySecurities, List.map_append]
          rw [hmc, hth]
          simp [List.append_assoc]
      · have hth : tokenHoldings env t = [] := by
          unfold tokenHoldings
          rw [hd]
          dsimp only
          rw [hhe]
        have hts : tokenSecurities env t = [] := by
          unfold tokenSecurities
          rw [hd]
          dsimp only
          rw [hhe]
        have hpt : processToken env agg t =
            .ok { agg with accounts := agg.accounts ++ l.map normalizeAccount } := by
          unfold processToken
          rw [hd]
          dsimp only
          rw [ha]
          dsimp only
          rw [hhe]
        obtain ⟨F, hPT, hFa, hFs, hFh⟩ :=
          ih { agg with accounts := agg.accounts ++ l.map normalizeAccount }
            (fun t2 ht2 => hok t2 (List.mem_cons_of_mem t ht2))
        refine ⟨F, ?_, ?_, ?_, ?_⟩
        · simp only [processTokens, hpt]
          exact hPT
        · rw [hFa, List.flatMap_cons, hta]
          simp [List.append_assoc]
        · rw [hFs, List.flatMap_cons, hts]
          simp
        · rw [hFh, List.flatMap_cons, hth]
          simp

/-- C3: when every connection decrypts and fetches accounts successfully
and holdings fetches either succeed or raise provider errors, the sync
succeeds and returns the concatenated per-connection contributions: a
connection whose holdings fetch raised contributes its accounts but zero
holdings and zero securities; the persistence pass does not abort under the
echoing driver and every fetched account ends with a stored row under its
natural key. -/
theorem c3_holdings_tolerance (env : SyncEnv) (s0 : Store) (hne : env.tokens ≠ [])
    (hok : ∀ t ∈ env.tokens, connOk env t) (hwf : WFStore s0) :
    ∃ F st ab, get_accounts_and_holdings env echoBeh s0 = .ok (respOf F, st, ab) ∧
      F.accounts = env.tokens.flatMap (tokenAccounts env) ∧
      F.securities = env.tokens.flatMap (tokenSecurities env) ∧
      F.holdings.map holdingCore =
        (env.tokens.flatMap (tokenHoldings env)).map holdingCore ∧
      ab = false ∧
      (∀ a ∈ F.accounts, selectAccounts st env.userId a.account_id ≠ []) := by
  obtain ⟨F, hpt, hFa, hFs, hFh⟩ := processTokens_ok env env.tokens ⟨[], [], []⟩ hok
  obtain ⟨S, c2, hrun, hwfS, _, _, _, _, _, hcov⟩ :=
    runAccounts_echo env.userId F.holdings F.accounts s0 0 hwf
  have hne2 : env.tokens.isEmpty = false := by
    cases henv : env.tokens with
    | nil => exact absurd henv hne
    | cons a l2 => rfl
  refine ⟨F, S, false, ?_, by simpa using hFa, by simpa using hFs, by simpa using hFh,
    rfl, ?_⟩
  · unfold get_accounts_and_holdings syncBody store_portfolio_data
    simp only [hne2, Bool.false_eq_true, if_false, hpt]
    rw [hrun]
    rfl
  · intro a ha
    obtain ⟨i, hhead, _⟩ := hcov a ha
    intro hnil
    unfold accHead at hhead
    rw [hnil] at hhead
    cases hhead

/-- Fixture raw holding for C3. -/
def rawHoldC3 : RawHolding := ⟨"acc1", some "S1", some 10, some 150.25, some 1502.5, some 1400⟩

/-- Fixture raw security for C3. -/
def rawSecC3 : RawSecurity := ⟨"S1", some "AAPL", "Apple Inc.", some "equity", some "USD"⟩

/-- Fixture environment for C3: the first connection supports investments,
the second raises a provider error on the holdings fetch. -/
def envC3 : SyncEnv :=
  ⟨"u3", [⟨"item31", "enc31"⟩, ⟨"item32", "enc32"⟩],
   fun s => .ok s,
   fun tok => if tok = "enc31" then .ok [rawAcct1] else .ok [rawAcct2],
   fun tok =>
     if tok = "enc31" then .ok ⟨[rawHoldC3], [rawSecC3]⟩
     else .error (.api "PRODUCTS_NOT_SUPPORTED")⟩

/-- Witness for C3 at the concrete two-connection fixture. -/
theorem c3_witness :
    ∃ F st ab, get_accounts_and_holdings envC3 echoBeh store0 = .ok (respOf F, st, ab) ∧
      F.accounts = envC3.tokens.flatMap (tokenAccounts envC3) ∧
      F.securities = envC3.tokens.flatMap (tokenSecurities envC3) ∧
      F.holdings.map holdingCore =
        (envC3.tokens.flatMap (tokenHoldings envC3)).map holdingCore ∧
      ab = false ∧
      (∀ a ∈ F.accounts, selectAccounts st envC3.userId a.account_id ≠ []) :=
  c3_holdings_tolerance envC3 store0 (by decide)
    (by
      intro t ht
      rcases List.mem_cons.mp ht with haa | ht2
      · subst haa
        exact ⟨"enc31", rfl, ⟨[rawAcct1], rfl⟩, Or.inl ⟨⟨[rawHoldC3], [rawSecC3]⟩, rfl⟩⟩
      · rcases List.mem_cons.mp ht2 with haa | ht3
        · subst haa
          exact ⟨"enc32", rfl, ⟨[rawAcct2], rfl⟩, Or.inr ⟨"PRODUCTS_NOT_SUPPORTED", rfl⟩⟩
        · cases ht3)
    WF_store0

end PortfolioApp
